import Mathlib

/-!
Verification development for the TennetConnector repository
(src/tennet/TenneTClient.py and src/tennet/helpers/DataQueries.py).

The Python source is shallowly embedded below: calendar dates are triples
of naturals, pandas DataFrames are column-oriented tables of tagged values,
raised Python exceptions are an explicit error type, and each function of
the source that the claims mention is translated into an executable Lean
definition keeping the source's name where possible.
-/

namespace Tennet

/-! ### Calendar dates

Embeds the `pd.Timestamp` dates used by `_monthly_data_call` (the code only
ever uses whole calendar days: `freq='m'` month ends, `pd.Timedelta(days=1)`
steps, and `date().strftime` formatting). -/

structure Date where
  year : Nat
  month : Nat
  day : Nat
deriving DecidableEq

def isLeap (y : Nat) : Bool :=
  (y % 4 == 0 && y % 100 != 0) || (y % 400 == 0)

def daysInMonth (y m : Nat) : Nat :=
  if m == 2 then (if isLeap y then 29 else 28)
  else if m == 4 || m == 6 || m == 9 || m == 11 then 30
  else 31

/-- The day after `d` (`d + pd.Timedelta(days=1)`). -/
def Date.nextDay (d : Date) : Date :=
  if d.day < daysInMonth d.year d.month then ⟨d.year, d.month, d.day + 1⟩
  else if d.month < 12 then ⟨d.year, d.month + 1, 1⟩
  else ⟨d.year + 1, 1, 1⟩

/-- Chronological comparison of calendar dates. -/
def Date.le (a b : Date) : Bool :=
  a.year < b.year ||
    (a.year == b.year &&
      (a.month < b.month || (a.month == b.month && a.day ≤ b.day)))

/-- The month-end date of month `(y, m)`. -/
def monthEnd (y m : Nat) : Date := ⟨y, m, daysInMonth y m⟩

/-- Embeds `pd.date_range(start_date, end_date, freq='m')`: every month-end
date `d` with `start ≤ d ≤ end`, in chronological order. -/
def dateRangeMonthEnds (s e : Date) : List Date :=
  let count := (e.year * 12 + e.month) + 1 - (s.year * 12 + s.month)
  ((List.range count).map (fun i =>
      let months := s.year * 12 + (s.month - 1) + i
      monthEnd (months / 12) (months % 12 + 1))).filter
    (fun d => s.le d && d.le e)

/-! ### The Date-Window Planner of `_monthly_data_call`

The source (TenneTClient.py lines 60-93) computes
`dates = pd.date_range(start_date, end_date, freq='m')` and then issues one
request per window:
for `i` in `range(len(dates))` with `i -= 1` applied first, the window is
`(start_date, dates[0])` when `i == -1` and `(dates[i] + 1 day, dates[i+1])`
otherwise; after the loop one more window
`(dates[-1] + 1 day, end_date)` is always requested.  When `dates` is empty
a single window `(start_date, end_date)` is requested. -/

def monthly_data_call_windows (start_date end_date : Date) : List (Date × Date) :=
  let dates := dateRangeMonthEnds start_date end_date
  if dates.length > 0 then
    ((List.range dates.length).map (fun i =>
      if i == 0 then (start_date, dates.getD 0 start_date)
      else ((dates.getD (i - 1) start_date).nextDay, dates.getD i start_date)))
    ++ [((dates.getD (dates.length - 1) start_date).nextDay, end_date)]
  else
    [(start_date, end_date)]

/-! ### Error taxonomy

Embeds the Python exceptions the pipeline can raise: `RetrievalError` is
`requests` raising on a non-2xx status (`raise_for_status`), `parseError`
is the exception of `pd.read_xml` (malformed XML or an xpath matching zero
nodes), `schemaError` is the `AttributeError` raised by accessing a missing
DataFrame column as an attribute (`df.PTU`, `df.DATE`), and `valueError`
is the `ValueError`/`TypeError` raised by `pd.to_datetime` on a value that
does not match the expected format. -/

inductive Err where
  | retrievalError (status : Nat)
  | parseError
  | schemaError
  | valueError
deriving DecidableEq

/-! ### Cell values and tables

A pandas DataFrame is embedded column-wise: a list of
(column name, column values) pairs, all columns of equal length in any
frame the library actually builds.  Cell values are the three kinds the
pipeline manipulates: strings (XML text), integers (columns that
`pd.read_xml` type-infers as numeric, such as PTU and SEQ_NR) and
calendar dates (the DATE column after `pd.to_datetime`). -/

inductive Value where
  | str (s : String)
  | int (n : Int)
  | date (d : Date)
deriving DecidableEq

structure Table where
  cols : List (String × List Value)
deriving DecidableEq

def Table.names (t : Table) : List String := t.cols.map Prod.fst

/-- Column access `df[n]` / `df.n`; `none` embeds the `AttributeError` or
`KeyError` of a missing column. -/
def Table.getCol (t : Table) (n : String) : Option (List Value) :=
  (t.cols.find? (fun c => c.1 == n)).map Prod.snd

/-- Column assignment `df[n] = vs`: replaces the column in place when the
name is present, otherwise appends it as the last column. -/
def Table.setCol (t : Table) (n : String) (vs : List Value) : Table :=
  if t.cols.any (fun c => c.1 == n) then
    ⟨t.cols.map (fun c => if c.1 == n then (n, vs) else c)⟩
  else ⟨t.cols ++ [(n, vs)]⟩

/-- Embeds `df.drop(columns=[n])` and the column removal performed by
`df.set_index(n)`. -/
def Table.removeCol (t : Table) (n : String) : Table :=
  ⟨t.cols.filter (fun c => c.1 != n)⟩

/-- Row selection by boolean mask, one entry per row. -/
def maskFilter (mask : List Bool) (vs : List α) : List α :=
  ((mask.zip vs).filter Prod.fst).map Prod.snd

/-- Embeds `df.query(...)` keeping exactly the rows whose mask entry is
`true`. -/
def Table.filterRows (t : Table) (mask : List Bool) : Table :=
  ⟨t.cols.map (fun c => (c.1, maskFilter mask c.2))⟩

/-! ### Naive and CET-localized timestamps -/

/-- A naive (timezone-free) timestamp with minute resolution: exactly the
values `pd.to_datetime` produces from the `'date HH:MM'` strings built by
`assign_datetime_column`. -/
structure NaiveDT where
  date : Date
  hour : Nat
  minute : Nat
deriving DecidableEq

/-- Days since 0001-01-01 in the proleptic Gregorian calendar. -/
def Date.toDays (d : Date) : Nat :=
  let n := d.year - 1
  365 * n + n / 4 - n / 100 + n / 400
    + (List.range (d.month - 1)).foldl (fun acc i => acc + daysInMonth d.year (i + 1)) 0
    + (d.day - 1)

/-- Day of the week, with Sunday = 0 (0001-01-01 was a Monday). -/
def Date.weekday (d : Date) : Nat := (d.toDays + 1) % 7

/-- The day-of-month of the last Sunday of month `(y, m)`: the European
DST transitions happen on the last Sunday of March and of October. -/
def lastSundayDay (y m : Nat) : Nat :=
  let last := daysInMonth y m
  last - Date.weekday ⟨y, m, last⟩

/-- Embeds `Series.dt.tz_localize('CET', ambiguous='NaT',
nonexistent='shift_forward')` of TenneTClient.py line 47.  The pytz `CET`
zone observes EU daylight saving: on the last Sunday of October the naive
hour 02:xx occurs twice and `ambiguous='NaT'` maps it to `NaT` (`none`);
on the last Sunday of March the naive hour 02:xx does not exist and
`nonexistent='shift_forward'` moves it to the next valid instant, 03:00.
Every other naive timestamp denotes a unique instant and is kept as is. -/
def localizeCET (t : NaiveDT) : Option NaiveDT :=
  if t.date.month == 10 && t.date.day == lastSundayDay t.date.year 10 && t.hour == 2 then
    none
  else if t.date.month == 3 && t.date.day == lastSundayDay t.date.year 3 && t.hour == 2 then
    some ⟨t.date, 3, 0⟩
  else
    some t

/-! ### Parsing helpers for `pd.to_datetime` -/

def digitsToNat (l : List Char) : Nat :=
  l.foldl (fun acc c => 10 * acc + (c.toNat - 48)) 0

def allDigits (l : List Char) : Bool := !l.isEmpty && l.all Char.isDigit

def splitOnChar (sep : Char) (l : List Char) : List (List Char) :=
  match l with
  | [] => [[]]
  | c :: rest =>
    let r := splitOnChar sep rest
    if c == sep then [] :: r
    else match r with
      | [] => [[c]]
      | g :: gs => (c :: g) :: gs

/-- Strict `strptime` with format `%H:%M`: one or two digits, a colon, one
or two digits, nothing else, hour below 24 and minute below 60. -/
def parseHM (s : String) : Option (Nat × Nat) :=
  match splitOnChar ':' s.toList with
  | [h, m] =>
    if allDigits h && allDigits m && h.length ≤ 2 && m.length ≤ 2 then
      let hn := digitsToNat h
      let mn := digitsToNat m
      if hn ≤ 23 && mn ≤ 59 then some (hn, mn) else none
    else none
  | _ => none

/-- Strict ISO `%Y-%m-%d` date parsing, validating the calendar
(`pd.to_datetime` rejects dates such as a February 30th). -/
def parseYMD (s : String) : Option Date :=
  match splitOnChar '-' s.toList with
  | [y, m, d] =>
    if allDigits y && allDigits m && allDigits d && y.length ≤ 4 && m.length ≤ 2 && d.length ≤ 2 then
      let yn := digitsToNat y
      let mn := digitsToNat m
      let dn := digitsToNat d
      if 1 ≤ mn && mn ≤ 12 && 1 ≤ dn && dn ≤ daysInMonth yn mn then
        some ⟨yn, mn, dn⟩
      else none
    else none
  | _ => none

/-! ### Sequencing of fallible per-row operations

A pandas operation that raises on any single bad row aborts the whole
call; `exList` threads that behavior through a list. -/

def exList (f : α → Except Err β) : List α → Except Err (List β)
  | [] => .ok []
  | a :: as =>
    match f a with
    | .error e => .error e
    | .ok b =>
      match exList f as with
      | .error e => .error e
      | .ok bs => .ok (b :: bs)

def optToExcept (e : Err) : Option β → Except Err β
  | some b => .ok b
  | none => .error e

/-! ### The column-convention resolver of `assign_datetime_column`

TenneTClient.py lines 25-43: `from_cols` is every column whose name
contains `PERIOD_FROM` or `PERIODE_VAN`, `time_col` every column whose
name contains `TIME`; the branch taken is the first of
`len(from_cols) == 1`, `len(time_col) == 1`, `'SEQ_NR' in df.columns`,
else the PTU fallback. -/

def leadMatch : List Char → List Char → Bool
  | [], _ => true
  | _ :: _, [] => false
  | a :: as, b :: bs => a == b && leadMatch as bs

def strContains (hay needle : String) : Bool :=
  (List.range (hay.toList.length + 1)).any
    (fun i => leadMatch needle.toList (hay.toList.drop i))

def isFromCol (c : String) : Bool :=
  strContains c "PERIOD_FROM" || strContains c "PERIODE_VAN"

def isTimeCol (c : String) : Bool := strContains c "TIME"

inductive Convention where
  | fromCol (c : String)
  | timeCol (c : String)
  | seqNr
  | ptu
deriving DecidableEq

def resolveConvention (names : List String) : Convention :=
  if (names.filter isFromCol).length == 1 then .fromCol ((names.filter isFromCol).headD "")
  else if (names.filter isTimeCol).length == 1 then .timeCol ((names.filter isTimeCol).headD "")
  else if names.contains "SEQ_NR" then .seqNr
  else .ptu

/-! ### Per-row timestamp derivation

At the point `assign_datetime_column` runs, the DATE column holds
`pd.to_datetime` values (converted on line 51), so
`df.DATE.astype(str)` renders the ISO date back and
`pd.to_datetime(dstr + ' ' + x, format='%Y-%m-%d %H:%M')` amounts to
pairing the date value with a strict `%H:%M` parse of `x`; a cell of the
wrong type makes the pandas string concatenation or parse raise
(embedded as `none`, surfaced as `valueError`). -/

def deriveDT (dv tv : Value) : Option NaiveDT :=
  match dv, tv with
  | .date d, .str s => (parseHM s).map (fun hm => ⟨d, hm.1, hm.2⟩)
  | _, _ => none

/-- The SEQ_NR rule (line 35): `(SEQ_NR - 1)` rendered as `'<n>:00'` and
parsed with `%H:%M`, which accepts exactly hours 0-23. -/
def seqToDT (dv sv : Value) : Option NaiveDT :=
  match dv, sv with
  | .date d, .int n =>
    if 0 ≤ n - 1 && n - 1 ≤ 23 then some ⟨d, (n - 1).toNat, 0⟩ else none
  | _, _ => none

/-- The PTU fallback builds `'<date> <HOUR>:<MINUTE>'` and parses it with
the flexible `pd.to_datetime` (line 44), which accepts exactly hours 0-23
and minutes 0-59. -/
def mkPTUNaive (dv hv mv : Value) : Option NaiveDT :=
  match dv, hv, mv with
  | .date d, .int h, .int m =>
    if 0 ≤ h && h ≤ 23 && 0 ≤ m && m ≤ 59 then some ⟨d, h.toNat, m.toNat⟩ else none
  | _, _, _ => none

/-- The `replace(24, 0)` applied to the derived HOUR column (line 42). -/
def replace24 (h : Int) : Int := if h = 24 then 0 else h

/-- The HOUR value the PTU fallback computes for a PTU cell: `PTU // 4`
(line 40, Python floor division) with the `replace(24, 0)` of line 42
applied. -/
def ptuHourOf (p : Int) : Int := replace24 (Int.fdiv p 4)

/-- The MINUTE value the PTU fallback computes for a PTU cell:
`PTU % 4 * 15` (line 41, Python modulus). -/
def ptuMinuteOf (p : Int) : Int := Int.emod p 4 * 15

/-- Whether the row survives the `query('HOUR != 25')` of line 43. -/
def ptuKept (p : Int) : Bool := ptuHourOf p != 25

/-! ### The four branches and `assign_datetime_column` itself

The reconstruction returns the localized DATETIME index (what
`set_index("DATETIME")` makes the row key) together with the remaining
table; `set_index` consumes the `DATETIME` column, so it is removed from
the columns. -/

/-- The PERIOD_FROM / TIME / SEQ_NR branches share this shape: combine the
DATE column with column `c` row by row via `f`, localize, set the result
as the index. -/
def colBranch (t : Table) (c : String) (f : Value → Value → Option NaiveDT) :
    Except Err (List (Option NaiveDT) × Table) :=
  match t.getCol "DATE" with
  | none => .error .schemaError
  | some ds =>
    match t.getCol c with
    | none => .error .schemaError
    | some ts =>
      match exList (fun p => optToExcept .valueError (f p.1 p.2)) (ds.zip ts) with
      | .error e => .error e
      | .ok ns => .ok (ns.map localizeCET, t.removeCol "DATETIME")

/-- Integer extraction: the `//` and `%` of the PTU branch raise on a
non-numeric column. -/
def asIntValue : Value → Except Err Int
  | .int n => .ok n
  | _ => .error .valueError

/-- The table state after lines 40-43 of the PTU fallback: the HOUR and
MINUTE columns assigned from PTU, and the rows with HOUR 25 dropped by
`query('HOUR != 25')` (the query mask is computed from the replaced HOUR
column). -/
def ptuTable (t : Table) (pints : List Int) : Table :=
  ((t.setCol "HOUR" ((pints.map ptuHourOf).map .int)).setCol "MINUTE"
      ((pints.map ptuMinuteOf).map .int)).filterRows
    ((pints.map ptuHourOf).map (fun h => h != 25))

/-- The body of the PTU fallback (lines 40-46) after the PTU column has
been read and checked numeric: build DATETIME from the surviving rows of
`ptuTable`, localize and set the index.  The
`df.drop(columns=['HOUR', 'MINUTE'])` on line 46 is not assigned back, so
HOUR and MINUTE stay in the table. -/
def ptuCore (t : Table) (pints : List Int) : Except Err (List (Option NaiveDT) × Table) :=
  match (ptuTable t pints).getCol "DATE", (ptuTable t pints).getCol "HOUR",
      (ptuTable t pints).getCol "MINUTE" with
  | some ds, some hs, some ms =>
    match exList (fun q => optToExcept .valueError (mkPTUNaive q.1.1 q.1.2 q.2))
        ((ds.zip hs).zip ms) with
    | .error e => .error e
    | .ok ns => .ok (ns.map localizeCET, (ptuTable t pints).removeCol "DATETIME")
  | _, _, _ => .error .schemaError

/-- The PTU fallback branch (lines 38-46): `df.PTU` raises when the
column is missing, `//` and `%` raise on non-numeric cells, and the rest
is `ptuCore`. -/
def ptuBranch (t : Table) : Except Err (List (Option NaiveDT) × Table) :=
  match t.getCol "PTU" with
  | none => .error .schemaError
  | some ps =>
    match exList asIntValue ps with
    | .error e => .error e
    | .ok pints => ptuCore t pints

def assign_datetime_column (t : Table) : Except Err (List (Option NaiveDT) × Table) :=
  match resolveConvention t.names with
  | .fromCol c => colBranch t c deriveDT
  | .timeCol c => colBranch t c deriveDT
  | .seqNr => colBranch t "SEQ_NR" seqToDT
  | .ptu => ptuBranch t

/-! ### `assign_date_column`

Line 51 first converts the DATE column with the flexible
`pd.to_datetime(df.DATE)` (ISO date strings; an already-converted value
passes through unchanged), then calls `assign_datetime_column`. -/

def toDatetimeValue : Value → Except Err Value
  | .str s =>
    match parseYMD s with
    | some d => .ok (.date d)
    | none => .error .valueError
  | .date d => .ok (.date d)
  | .int _ => .error .valueError

def assign_date_column (t : Table) : Except Err (List (Option NaiveDT) × Table) :=
  match t.getCol "DATE" with
  | none => .error .schemaError
  | some ds =>
    match exList toDatetimeValue ds with
    | .error e => .error e
    | .ok ds' => assign_datetime_column (t.setCol "DATE" ds')

/-! ### The XML Record parser

`parse_data` (TenneTClient.py line 13 and DataQueries.py line 6) is
`pd.read_xml(response.content, xpath='.//Record')`.  A payload that is not
well-formed XML makes the underlying parser raise, and an xpath that
matches zero nodes makes `pd.read_xml` raise `ValueError`; both are the
spec's ParseError.  The payload is embedded as `Option Xml`: `none` for a
byte string that is not well-formed XML, `some` for the parsed element
tree.  The xpath `'.//Record'` selects every strict descendant of the root
tagged `Record`, in document order; each such element becomes one row,
its child elements becoming (column, text) pairs. -/

inductive Xml where
  | elem (tag : String) (text : String) (children : List Xml)

def Xml.tag : Xml → String
  | .elem t _ _ => t

def Xml.text : Xml → String
  | .elem _ s _ => s

mutual

def findRecords : Xml → List Xml
  | .elem _ _ cs => findRecordsList cs

def findRecordsList : List Xml → List Xml
  | [] => []
  | x :: xs => (if x.tag == "Record" then [x] else []) ++ findRecords x ++ findRecordsList xs

end

def recordToRow : Xml → List (String × String)
  | .elem _ _ cs => cs.map (fun c => (c.tag, c.text))

def parse_data : Option Xml → Except Err (List (List (String × String)))
  | none => .error .parseError
  | some x =>
    match findRecords x with
    | [] => .error .parseError
    | rs => .ok (rs.map recordToRow)

/-! ### The HTTP request URLs

`TenneTClient._api_call` (lines 54-58) runs
`requests.get(self.base_url, params=params)`.  `requests` builds the final
URL from the base URL (whose query part is empty, the base ends in `?`)
and `params`: a dict is url-encoded as `k=v` pairs joined by `&`, while a
plain string is appended verbatim as the query string.
`query_actual_imbalance` (line 237) calls `_api_call` with the feed URL
string as `params`, so the string lands in the query of `base_url`. -/

inductive ReqParams where
  | dict (kvs : List (String × String))
  | strParams (s : String)

def encodeParams (kvs : List (String × String)) : String :=
  String.intercalate "&" (kvs.map (fun kv => kv.1 ++ "=" ++ kv.2))

/-- The URL `requests.get(base, params=p)` actually requests, for a base
URL that ends in `?` with an empty query. -/
def preparedUrl (base : String) (p : ReqParams) : String :=
  match p with
  | .strParams s => base ++ s
  | .dict kvs => base ++ encodeParams kvs

def base_url : String :=
  "http://www.tennet.org/english/operational_management/export_data.aspx?"

def actual_imbalance_feed : String :=
  "https://www.tennet.org/xml/balancedeltaprices/balans-delta.xml"

/-- The URL `query_actual_imbalance` issues its GET against (line 237
passes the feed URL as the `params` argument of `_api_call`). -/
def query_actual_imbalance_request_url : String :=
  preparedUrl base_url (.strParams actual_imbalance_feed)

/-! ### Ascending order of a DATETIME index -/

def NaiveDT.toMin (t : NaiveDT) : Nat :=
  t.date.toDays * 1440 + t.hour * 60 + t.minute

/-- The timestamped rows are in ascending order (comparing the non-null
entries, which is how a sorted `DatetimeIndex` orders them). -/
def idxSortedAsc : List (Option NaiveDT) → Bool
  | [] => true
  | [_] => true
  | a :: b :: rest =>
    (match a, b with
     | some x, some y => Nat.ble x.toMin y.toMin
     | _, _ => true) && idxSortedAsc (b :: rest)

/-! ### Concrete tables used to exercise the pipeline -/

/-- A parsed two-row table whose rows arrive in descending date order. -/
def exUnsorted : Table :=
  ⟨[("DATE", [.str "2023-01-02", .str "2023-01-01"]),
    ("TIME", [.str "00:30", .str "00:15"])]⟩

def exUnsortedOut : Table :=
  ⟨[("DATE", [.date ⟨2023, 1, 2⟩, .date ⟨2023, 1, 1⟩]),
    ("TIME", [.str "00:30", .str "00:15"])]⟩

/-- A table with two PERIOD_FROM-matching columns and a TIME column. -/
def exTwoFrom : Table :=
  ⟨[("DATE", [.str "2023-01-01"]), ("PERIOD_FROM", [.str "01:00"]),
    ("PERIODE_VAN", [.str "02:00"]), ("TIME", [.str "03:00"])]⟩

def exTwoFromOut : Table :=
  ⟨[("DATE", [.date ⟨2023, 1, 1⟩]), ("PERIOD_FROM", [.str "01:00"]),
    ("PERIODE_VAN", [.str "02:00"]), ("TIME", [.str "03:00"])]⟩

/-- A table with exactly one PERIOD_FROM column next to a TIME column. -/
def exOneFrom : Table :=
  ⟨[("DATE", [.date ⟨2023, 1, 1⟩]), ("PERIOD_FROM", [.str "01:00"]),
    ("TIME", [.str "03:00"])]⟩

/-- A one-row PTU table with PTU = 25. -/
def exPTU25 : Table :=
  ⟨[("DATE", [.date ⟨2023, 1, 1⟩]), ("PTU", [.int 25])]⟩

def exPTU25Out : Table :=
  ⟨[("DATE", [.date ⟨2023, 1, 1⟩]), ("PTU", [.int 25]),
    ("HOUR", [.int 6]), ("MINUTE", [.int 15])]⟩

/-- A one-row PTU table with PTU = 100, whose derived HOUR is 25. -/
def exPTU100 : Table :=
  ⟨[("DATE", [.date ⟨2023, 1, 1⟩]), ("PTU", [.int 100])]⟩

def exPTU100Out : Table :=
  ⟨[("DATE", []), ("PTU", []), ("HOUR", []), ("MINUTE", [])]⟩

/-- A three-row PTU table exercising the hour-24 normalization (PTU = 96)
and the hour-25 drop (PTU = 100) together. -/
def exPTUMix : Table :=
  ⟨[("DATE", [.date ⟨2023, 1, 1⟩, .date ⟨2023, 1, 1⟩, .date ⟨2023, 1, 1⟩]),
    ("PTU", [.int 25, .int 96, .int 100])]⟩

def exPTUMixOut : Table :=
  ⟨[("DATE", [.date ⟨2023, 1, 1⟩, .date ⟨2023, 1, 1⟩]),
    ("PTU", [.int 25, .int 96]),
    ("HOUR", [.int 6, .int 0]), ("MINUTE", [.int 15, .int 0])]⟩

/-- A table whose only TIME-matching column is named DATETIME itself. -/
def exDT : Table :=
  ⟨[("DATE", [.str "2023-06-15"]), ("DATETIME", [.str "12:30"])]⟩

def exDTOut : Table :=
  ⟨[("DATE", [.date ⟨2023, 6, 15⟩])]⟩

/-- A table matching none of the four column conventions. -/
def exNoPattern : Table :=
  ⟨[("DATE", [.str "2023-01-01"]), ("PRICE", [.int 5])]⟩

/-- A well-formed XML document with zero Record elements. -/
def emptyExport : Xml := .elem "GVKDATAEXPORT" "" []

/-- A well-formed XML document with one Record element. -/
def oneRecordExport : Xml :=
  .elem "GVKDATAEXPORT" ""
    [.elem "Record" "" [.elem "DATE" "2023-01-01" [], .elem "PTU" "1" []]]

/-- A SEQ_NR table. -/
def exSeq : Table :=
  ⟨[("DATE", [.date ⟨2023, 1, 1⟩]), ("SEQ_NR", [.int 5])]⟩

/-! ## General lemmas about the embedding -/

theorem exList_map_ok (f : α → Except Err β) (g : α → β) :
    ∀ l : List α, (∀ a ∈ l, f a = .ok (g a)) → exList f l = .ok (l.map g) := by
  intro l
  induction l with
  | nil => intro _; rfl
  | cons a as ih =>
    intro h
    have ha := h a (List.mem_cons_self a as)
    have has := ih (fun b hb => h b (List.mem_cons_of_mem a hb))
    simp [exList, ha, has]

theorem exList_length (f : α → Except Err β) :
    ∀ (l : List α) (bs : List β), exList f l = .ok bs → bs.length = l.length := by
  intro l
  induction l with
  | nil =>
    intro bs h
    simp only [exList] at h
    cases h
    rfl
  | cons a as ih =>
    intro bs h
    simp only [exList] at h
    cases hfa : f a with
    | error e => rw [hfa] at h; cases h
    | ok b =>
      rw [hfa] at h
      cases hrest : exList f as with
      | error e => rw [hrest] at h; cases h
      | ok bs' =>
        rw [hrest] at h
        cases h
        simp [ih bs' hrest]

theorem exList_mem_ok (f : α → Except Err β) :
    ∀ (l : List α) (bs : List β), exList f l = .ok bs →
      ∀ a ∈ l, ∃ b ∈ bs, f a = .ok b := by
  intro l
  induction l with
  | nil =>
    intro bs _ a ha
    cases ha
  | cons x xs ih =>
    intro bs h a ha
    simp only [exList] at h
    cases hfa : f x with
    | error e => rw [hfa] at h; cases h
    | ok b =>
      rw [hfa] at h
      cases hrest : exList f xs with
      | error e => rw [hrest] at h; cases h
      | ok bs' =>
        rw [hrest] at h
        cases h
        rcases List.mem_cons.mp ha with rfl | hmem
        · exact ⟨b, List.mem_cons_self _ _, hfa⟩
        · obtain ⟨b', hb', hfb'⟩ := ih bs' hrest a hmem
          exact ⟨b', List.mem_cons_of_mem _ hb', hfb'⟩

/-- Inverting a successful integer-column extraction: the column held
exactly the corresponding `Value.int` cells. -/
theorem exList_asIntValue_inv :
    ∀ (ps : List Value) (ns : List Int), exList asIntValue ps = .ok ns →
      ps = ns.map Value.int := by
  intro ps
  induction ps with
  | nil =>
    intro ns h
    simp only [exList] at h
    cases h
    rfl
  | cons v vs ih =>
    intro ns h
    simp only [exList] at h
    cases hfa : asIntValue v with
    | error e => rw [hfa] at h; cases h
    | ok n =>
      rw [hfa] at h
      cases hrest : exList asIntValue vs with
      | error e => rw [hrest] at h; cases h
      | ok ns' =>
        rw [hrest] at h
        cases h
        have hv : v = Value.int n := by
          cases v with
          | int m => cases hfa; rfl
          | str s => cases hfa
          | date d => cases hfa
        simp [hv, ih ns' hrest]

/-- Inverting the DATE conversion: every converted cell is a date. -/
theorem exList_toDatetime_dates :
    ∀ (ds ds' : List Value), exList toDatetimeValue ds = .ok ds' →
      ∀ v ∈ ds', ∃ d, v = Value.date d := by
  intro ds ds' h v hv
  induction ds generalizing ds' with
  | nil =>
    simp only [exList] at h
    cases h
    cases hv
  | cons a as ih =>
    simp only [exList] at h
    cases hfa : toDatetimeValue a with
    | error e => rw [hfa] at h; cases h
    | ok b =>
      rw [hfa] at h
      cases hrest : exList toDatetimeValue as with
      | error e => rw [hrest] at h; cases h
      | ok bs' =>
        rw [hrest] at h
        cases h
        rcases List.mem_cons.mp hv with rfl | hmem
        · cases a with
          | str s =>
            simp only [toDatetimeValue] at hfa
            cases hp : parseYMD s with
            | none => rw [hp] at hfa; cases hfa
            | some d =>
              rw [hp] at hfa
              cases hfa
              exact ⟨d, rfl⟩
          | date d =>
            cases hfa
            exact ⟨d, rfl⟩
          | int n => cases hfa
        · exact ih bs' hrest hmem

/-- A date cell passes `pd.to_datetime` unchanged. -/
theorem toDatetimeValue_date (d : Date) :
    toDatetimeValue (Value.date d) = .ok (Value.date d) := rfl

theorem exList_toDatetime_of_dates (ds : List Value)
    (h : ∀ v ∈ ds, ∃ d, v = Value.date d) :
    exList toDatetimeValue ds = .ok ds := by
  have := exList_map_ok toDatetimeValue id ds (fun v hv => by
    obtain ⟨d, rfl⟩ := h v hv
    rfl)
  simpa using this

/-! Lemmas about `maskFilter`. -/

theorem maskFilter_nil_left (l : List α) : maskFilter [] l = [] := rfl

theorem maskFilter_nil_right (m : List Bool) : maskFilter m ([] : List α) = [] := by
  cases m <;> rfl

theorem maskFilter_cons (b : Bool) (bs : List Bool) (a : α) (l : List α) :
    maskFilter (b :: bs) (a :: l) =
      if b then a :: maskFilter bs l else maskFilter bs l := by
  cases b <;> simp [maskFilter, List.filter, List.zip]

theorem maskFilter_map (f : α → β) :
    ∀ (m : List Bool) (l : List α),
      maskFilter m (l.map f) = (maskFilter m l).map f := by
  intro m
  induction m with
  | nil => intro l; rfl
  | cons b bs ih =>
    intro l
    cases l with
    | nil => simp [maskFilter_nil_right]
    | cons a as =>
      rw [List.map_cons, maskFilter_cons, maskFilter_cons]
      cases b
      · simp [ih]
      · simp [ih]

/-- Filtering a list by the mask computed from itself is an ordinary
filter. -/
theorem maskFilter_mask_self (p : α → Bool) :
    ∀ l : List α, maskFilter (l.map p) l = l.filter p := by
  intro l
  induction l with
  | nil => rfl
  | cons a as ih =>
    rw [List.map_cons, maskFilter_cons, List.filter_cons]
    cases hpa : p a
    · simp [ih]
    · simp [ih]

/-- Filtering a mapped list by the mask computed from the underlying list
filters the underlying list first. -/
theorem maskFilter_map_self (p : α → Bool) (g : α → β) :
    ∀ l : List α, maskFilter (l.map p) (l.map g) = (l.filter p).map g := by
  intro l
  induction l with
  | nil => rfl
  | cons a as ih =>
    rw [List.map_cons, List.map_cons, maskFilter_cons, List.filter_cons]
    cases hpa : p a
    · simp [ih]
    · simp [ih]

/-- The second components of a filtered zip are the filtered second list,
when the filter only looks at the second component. -/
theorem filter_snd_zip (p : β → Bool) :
    ∀ (ds : List α) (ps : List β), ds.length = ps.length →
      ps.filter p = ((ds.zip ps).filter (fun q => p q.2)).map Prod.snd := by
  intro ds
  induction ds with
  | nil =>
    intro ps h
    cases ps with
    | nil => rfl
    | cons q qs => cases h
  | cons d ds' ih =>
    intro ps h
    cases ps with
    | nil => cases h
    | cons q qs =>
      rw [List.zip_cons_cons, List.filter_cons, List.filter_cons]
      have h' : ds'.length = qs.length := by simpa using h
      cases hq : p q
      · simpa using ih qs h'
      · simpa using ih qs h'

/-- Filtering a companion list by a mask computed from another list of
the same length keeps exactly the positions the other list keeps. -/
theorem maskFilter_companion (p : β → Bool) :
    ∀ (ds : List α) (ps : List β), ds.length = ps.length →
      maskFilter (ps.map p) ds =
        ((ds.zip ps).filter (fun q => p q.2)).map Prod.fst := by
  intro ds
  induction ds with
  | nil => intro ps _; simp [maskFilter_nil_right]
  | cons d ds' ih =>
    intro ps hlen
    cases ps with
    | nil => cases hlen
    | cons q qs =>
      rw [List.map_cons, maskFilter_cons, List.zip_cons_cons, List.filter_cons]
      have hlen' : ds'.length = qs.length := by
        simpa using hlen
      cases hq : p q
      · simp [ih qs hlen']
      · simp [ih qs hlen']

theorem maskFilter_all_true :
    ∀ (m : List Bool) (l : List α), (∀ b ∈ m, b = true) → l.length = m.length →
      maskFilter m l = l := by
  intro m
  induction m with
  | nil =>
    intro l _ hl
    cases l with
    | nil => rfl
    | cons a as => cases hl
  | cons b bs ih =>
    intro l hb hl
    cases l with
    | nil => cases hl
    | cons a as =>
      rw [maskFilter_cons, hb b (List.mem_cons_self b bs)]
      simp only [if_true]
      rw [ih as (fun c hc => hb c (List.mem_cons_of_mem b hc)) (by simpa using hl)]

theorem maskFilter_length_eq (m : List Bool) :
    ∀ (l₁ : List α) (l₂ : List β), l₁.length = l₂.length →
      (maskFilter m l₁).length = (maskFilter m l₂).length := by
  induction m with
  | nil => intro l₁ l₂ _; rfl
  | cons b bs ih =>
    intro l₁ l₂ h
    cases l₁ with
    | nil =>
      cases l₂ with
      | nil => rfl
      | cons x xs => cases h
    | cons a as =>
      cases l₂ with
      | nil => cases h
      | cons x xs =>
        rw [maskFilter_cons, maskFilter_cons]
        have h' : as.length = xs.length := by simpa using h
        cases b
        · simp [ih as xs h']
        · simp [ih as xs h']

theorem mem_maskFilter (m : List Bool) :
    ∀ (l : List α) (a : α), a ∈ maskFilter m l → a ∈ l := by
  induction m with
  | nil =>
    intro l a h
    cases h
  | cons b bs ih =>
    intro l a h
    cases l with
    | nil => rw [maskFilter_nil_right] at h; cases h
    | cons x xs =>
      rw [maskFilter_cons] at h
      cases b with
      | false => exact List.mem_cons_of_mem x (ih xs a (by simpa using h))
      | true =>
        simp only [if_true] at h
        rcases List.mem_cons.mp h with rfl | hmem
        · exact List.mem_cons_self _ _
        · exact List.mem_cons_of_mem x (ih xs a hmem)

theorem map_eq_self_of (l : List α) (f : α → α) (h : ∀ a ∈ l, f a = a) :
    l.map f = l := by
  induction l with
  | nil => rfl
  | cons a as ih =>
    simp [h a (List.mem_cons_self a as), ih (fun b hb => h b (List.mem_cons_of_mem a hb))]

/-! Lemmas about table columns. -/

theorem table_ext (t u : Table) (h : t.cols = u.cols) : t = u := by
  cases t
  cases u
  cases h
  rfl

theorem getCol_mem_cols (t : Table) (n : String) (vs : List Value)
    (h : t.getCol n = some vs) : (n, vs) ∈ t.cols := by
  unfold Table.getCol at h
  cases hf : t.cols.find? (fun c => c.1 == n) with
  | none => rw [hf] at h; cases h
  | some c =>
    rw [hf] at h
    have hc1 : c.1 = n := by simpa using List.find?_some hf
    have hmem := List.mem_of_find?_eq_some hf
    have hc2 : c.2 = vs := by simpa using h
    obtain ⟨a, b⟩ := c
    simp only at hc1 hc2
    rw [hc1, hc2] at hmem
    exact hmem

theorem getCol_mem_names (t : Table) (n : String) (vs : List Value)
    (h : t.getCol n = some vs) : n ∈ t.names := by
  have := getCol_mem_cols t n vs h
  exact List.mem_map.mpr ⟨(n, vs), this, rfl⟩

theorem getCol_of_mem_names (t : Table) (n : String) (h : n ∈ t.names) :
    ∃ vs, t.getCol n = some vs := by
  unfold Table.getCol
  cases hf : t.cols.find? (fun c => c.1 == n) with
  | some c => exact ⟨c.2, rfl⟩
  | none =>
    obtain ⟨c, hc, hc1⟩ := List.mem_map.mp h
    have := List.find?_eq_none.mp hf c hc
    simp [hc1] at this

theorem names_contains_iff (t : Table) (n : String) :
    t.names.contains n = true ↔ n ∈ t.names := by
  simp [List.contains]

theorem any_name_of_mem (t : Table) (n : String) (h : n ∈ t.names) :
    t.cols.any (fun c => c.1 == n) = true := by
  obtain ⟨c, hc, hc1⟩ := List.mem_map.mp h
  exact List.any_eq_true.mpr ⟨c, hc, by simp [hc1]⟩

theorem not_any_name_of_not_mem (t : Table) (n : String) (h : n ∉ t.names) :
    t.cols.any (fun c => c.1 == n) = false := by
  rw [List.any_eq_false]
  intro c hc hbeq
  exact h (List.mem_map.mpr ⟨c, hc, by simpa using hbeq⟩)

/-- `setCol` keeps the column names when the name is already present and
appends the name otherwise. -/
theorem names_setCol (t : Table) (n : String) (vs : List Value) :
    (t.setCol n vs).names = if n ∈ t.names then t.names else t.names ++ [n] := by
  unfold Table.setCol
  by_cases h : n ∈ t.names
  · rw [if_pos (any_name_of_mem t n h), if_pos h]
    unfold Table.names
    simp only [List.map_map]
    apply List.map_congr_left
    intro c _
    by_cases hcn : (c.1 == n) = true
    · have : c.1 = n := by simpa using hcn
      simp [Function.comp, hcn, this]
    · have hcn' : (c.1 == n) = false := by simpa using hcn
      simp [Function.comp, hcn']
  · rw [if_neg (by simp [not_any_name_of_not_mem t n h]), if_neg h]
    unfold Table.names
    simp

theorem names_setCol_exists (t : Table) (n : String) (vs : List Value) :
    ∃ ex, (t.setCol n vs).names = t.names ++ ex ∧ ∀ e ∈ ex, e = n := by
  rw [names_setCol]
  by_cases h : n ∈ t.names
  · exact ⟨[], by simp [h], by simp⟩
  · exact ⟨[n], by simp [h], by simp⟩

theorem find?_setCol_list (n : String) (vs : List Value) :
    ∀ cs : List (String × List Value), cs.any (fun c => c.1 == n) = true →
      (cs.map (fun c => if c.1 == n then (n, vs) else c)).find?
          (fun c => c.1 == n) = some (n, vs) := by
  intro cs
  induction cs with
  | nil => intro h; cases h
  | cons d ds ih =>
    intro h
    simp only [List.map_cons, List.find?]
    by_cases hdn : (d.1 == n) = true
    · rw [if_pos hdn]
      simp
    · have hdn' : (d.1 == n) = false := by simpa using hdn
      rw [if_neg hdn]
      simp only [hdn']
      have hds : ds.any (fun c => c.1 == n) = true := by
        rcases List.any_eq_true.mp h with ⟨c, hc, hbc⟩
        rcases List.mem_cons.mp hc with rfl | hm
        · rw [hdn'] at hbc; cases hbc
        · exact List.any_eq_true.mpr ⟨c, hm, hbc⟩
      exact ih hds

theorem getCol_setCol_self (t : Table) (n : String) (vs : List Value) :
    (t.setCol n vs).getCol n = some vs := by
  unfold Table.setCol Table.getCol
  by_cases hany : t.cols.any (fun c => c.1 == n) = true
  · rw [if_pos hany]
    simp only
    rw [find?_setCol_list n vs t.cols hany]
    rfl
  · rw [if_neg hany]
    simp only
    rw [List.find?_append]
    have hnone : t.cols.find? (fun c => c.1 == n) = none := by
      rw [List.find?_eq_none]
      intro c hc hbeq
      exact hany (List.any_eq_true.mpr ⟨c, hc, hbeq⟩)
    rw [hnone]
    simp [List.find?]

theorem find?_setCol_ne_list (n m : String) (vs : List Value) (h : m ≠ n) :
    ∀ cs : List (String × List Value),
      (cs.map (fun c => if c.1 == n then (n, vs) else c)).find?
          (fun c => c.1 == m) = cs.find? (fun c => c.1 == m) := by
  intro cs
  induction cs with
  | nil => rfl
  | cons d ds ih =>
    simp only [List.map_cons, List.find?]
    by_cases hdn : (d.1 == n) = true
    · rw [if_pos hdn]
      have hd1 : d.1 = n := by simpa using hdn
      have h1 : (n == m) = false := by
        simp only [beq_eq_false_iff_ne, ne_eq]
        exact fun he => h he.symm
      have h2 : (d.1 == m) = false := by rw [hd1]; exact h1
      simp only [h1, h2]
      exact ih
    · have hdn' : (d.1 == n) = false := by simpa using hdn
      rw [if_neg hdn]
      cases hdm : (d.1 == m) with
      | true => simp only [hdm]
      | false =>
        simp only [hdm]
        exact ih

theorem getCol_setCol_ne (t : Table) (n m : String) (vs : List Value)
    (h : m ≠ n) : (t.setCol n vs).getCol m = t.getCol m := by
  unfold Table.setCol Table.getCol
  by_cases hany : t.cols.any (fun c => c.1 == n) = true
  · rw [if_pos hany]
    simp only
    rw [find?_setCol_ne_list n m vs h t.cols]
  · rw [if_neg hany]
    simp only
    rw [List.find?_append]
    have h1 : (n == m) = false := by
      simp only [beq_eq_false_iff_ne, ne_eq]
      exact fun he => h he.symm
    have hsingle : ([(n, vs)] : List (String × List Value)).find?
        (fun c => c.1 == m) = none := by
      simp [List.find?, h1]
    rw [hsingle]
    cases t.cols.find? (fun c => c.1 == m) <;> rfl

/-- Every column of `t.setCol n vs` named `n` holds exactly `vs`. -/
theorem cols_setCol_forall (t : Table) (n : String) (vs : List Value) :
    ∀ c ∈ (t.setCol n vs).cols, c.1 = n → c.2 = vs := by
  unfold Table.setCol
  by_cases hany : t.cols.any (fun c => c.1 == n) = true
  · rw [if_pos hany]
    intro c hc hcn
    obtain ⟨d, hd, hde⟩ := List.mem_map.mp hc
    by_cases hdn : (d.1 == n) = true
    · rw [if_pos hdn] at hde
      rw [← hde]
    · rw [if_neg hdn] at hde
      rw [← hde] at hcn
      exact absurd hcn (by simpa using hdn)
  · rw [if_neg hany]
    intro c hc hcn
    rcases List.mem_append.mp hc with hmem | hmem
    · exact absurd (List.any_eq_true.mpr ⟨c, hmem, by simp [hcn]⟩) hany
    · have : c = (n, vs) := by simpa using hmem
      rw [this]

/-- A column of `t.setCol n vs` not named `n` was a column of `t`. -/
theorem cols_setCol_preserve (t : Table) (n : String) (vs : List Value) :
    ∀ c ∈ (t.setCol n vs).cols, c.1 ≠ n → c ∈ t.cols := by
  unfold Table.setCol
  by_cases hany : t.cols.any (fun c => c.1 == n) = true
  · rw [if_pos hany]
    intro c hc hcn
    obtain ⟨d, hd, hde⟩ := List.mem_map.mp hc
    by_cases hdn : (d.1 == n) = true
    · rw [if_pos hdn] at hde
      rw [← hde] at hcn
      simp at hcn
    · rw [if_neg hdn] at hde
      rw [← hde]
      exact hd
  · rw [if_neg hany]
    intro c hc hcn
    rcases List.mem_append.mp hc with hmem | hmem
    · exact hmem
    · have : c = (n, vs) := by simpa using hmem
      rw [this] at hcn
      simp at hcn

/-- Every column of `t.setCol n vs` is an old column or is `(n, vs)`. -/
theorem cols_setCol_cases (t : Table) (n : String) (vs : List Value) :
    ∀ c ∈ (t.setCol n vs).cols, c ∈ t.cols ∨ c = (n, vs) := by
  unfold Table.setCol
  by_cases hany : t.cols.any (fun c => c.1 == n) = true
  · rw [if_pos hany]
    intro c hc
    obtain ⟨d, hd, hde⟩ := List.mem_map.mp hc
    by_cases hdn : (d.1 == n) = true
    · rw [if_pos hdn] at hde
      right
      rw [← hde]
    · rw [if_neg hdn] at hde
      left
      rw [← hde]
      exact hd
  · rw [if_neg hany]
    intro c hc
    rcases List.mem_append.mp hc with hmem | hmem
    · left; exact hmem
    · right; simpa using hmem

/-- Rewriting a column to the value every column of that name already
holds changes nothing. -/
theorem setCol_eq_self (t : Table) (n : String) (vs : List Value)
    (hmem : n ∈ t.names) (h : ∀ c ∈ t.cols, c.1 = n → c.2 = vs) :
    t.setCol n vs = t := by
  apply table_ext
  unfold Table.setCol
  rw [if_pos (any_name_of_mem t n hmem)]
  simp only
  apply map_eq_self_of
  intro c hc
  by_cases hcn : (c.1 == n) = true
  · rw [if_pos hcn]
    have hc1 : c.1 = n := by simpa using hcn
    have hc2 := h c hc hc1
    obtain ⟨a, b⟩ := c
    simp only at hc1 hc2
    rw [hc1, hc2]
  · rw [if_neg hcn]

theorem removeCol_eq_self (t : Table) (n : String) (h : n ∉ t.names) :
    t.removeCol n = t := by
  apply table_ext
  unfold Table.removeCol
  simp only
  apply List.filter_eq_self.mpr
  intro c hc
  simp only [bne_iff_ne, ne_eq]
  intro hcn
  exact h (List.mem_map.mpr ⟨c, hc, hcn⟩)

theorem names_filterRows (t : Table) (m : List Bool) :
    (t.filterRows m).names = t.names := by
  unfold Table.filterRows Table.names
  simp [List.map_map, Function.comp]

theorem getCol_filterRows (t : Table) (m : List Bool) (n : String) :
    (t.filterRows m).getCol n = (t.getCol n).map (maskFilter m) := by
  obtain ⟨cs⟩ := t
  unfold Table.filterRows Table.getCol
  simp only
  induction cs with
  | nil => rfl
  | cons c cs' ih =>
    simp only [List.map_cons, List.find?]
    cases hcn : (c.1 == n) with
    | true => simp
    | false =>
      simp only [hcn]
      exact ih

theorem cols_filterRows_mem (t : Table) (m : List Bool) :
    ∀ c ∈ (t.filterRows m).cols, ∃ d ∈ t.cols, c = (d.1, maskFilter m d.2) := by
  unfold Table.filterRows
  intro c hc
  obtain ⟨d, hd, hde⟩ := List.mem_map.mp hc
  exact ⟨d, hd, hde.symm⟩

/-! Lemmas about the convention resolver. -/

theorem resolve_fromCol_of_unique (names : List String) (c : String)
    (h : names.filter isFromCol = [c]) : resolveConvention names = .fromCol c := by
  unfold resolveConvention
  rw [h]
  rfl

theorem resolve_ptu_inv (names : List String)
    (h : resolveConvention names = .ptu) :
    ((names.filter isFromCol).length == 1) = false ∧
    ((names.filter isTimeCol).length == 1) = false ∧
    names.contains "SEQ_NR" = false := by
  unfold resolveConvention at h
  by_cases h1 : ((names.filter isFromCol).length == 1) = true
  · rw [if_pos h1] at h; cases h
  · rw [if_neg h1] at h
    by_cases h2 : ((names.filter isTimeCol).length == 1) = true
    · rw [if_pos h2] at h; cases h
    · rw [if_neg h2] at h
      by_cases h3 : (names.contains "SEQ_NR") = true
      · rw [if_pos h3] at h; cases h
      · exact ⟨by simpa using h1, by simpa using h2, by simpa using h3⟩

theorem resolve_ptu_append (ns extra : List String)
    (h : resolveConvention ns = .ptu)
    (hex : ∀ e ∈ extra, isFromCol e = false ∧ isTimeCol e = false ∧ e ≠ "SEQ_NR") :
    resolveConvention (ns ++ extra) = .ptu := by
  obtain ⟨h1, h2, h3⟩ := resolve_ptu_inv ns h
  have hf : (ns ++ extra).filter isFromCol = ns.filter isFromCol := by
    rw [List.filter_append]
    have hz : extra.filter isFromCol = [] :=
      List.filter_eq_nil_iff.mpr (fun e he => by simp [(hex e he).1])
    simp [hz]
  have ht : (ns ++ extra).filter isTimeCol = ns.filter isTimeCol := by
    rw [List.filter_append]
    have hz : extra.filter isTimeCol = [] :=
      List.filter_eq_nil_iff.mpr (fun e he => by simp [(hex e he).2.1])
    simp [hz]
  have hc : (ns ++ extra).contains "SEQ_NR" = false := by
    rw [Bool.eq_false_iff]
    intro hcc
    have hmem : "SEQ_NR" ∈ ns ++ extra := by
      simpa [List.contains] using hcc
    rcases List.mem_append.mp hmem with hm | hm
    · have : ns.contains "SEQ_NR" = true := by simpa [List.contains] using hm
      rw [h3] at this
      cases this
    · exact ((hex _ hm).2.2) rfl
  unfold resolveConvention
  rw [hf, ht, hc, h1, h2]
  simp

/-! Evaluation and inversion lemmas for the reconstruction branches. -/

theorem colBranch_eq (t : Table) (c : String) (f : Value → Value → Option NaiveDT)
    (ds ts : List Value) (ns : List NaiveDT)
    (hd : t.getCol "DATE" = some ds) (hc : t.getCol c = some ts)
    (hb : exList (fun p => optToExcept .valueError (f p.1 p.2)) (ds.zip ts) = .ok ns) :
    colBranch t c f = .ok (ns.map localizeCET, t.removeCol "DATETIME") := by
  simp only [colBranch, hd, hc, hb]

theorem colBranch_ok_inv (t : Table) (c : String)
    (f : Value → Value → Option NaiveDT) (r : List (Option NaiveDT) × Table)
    (h : colBranch t c f = .ok r) :
    r.2 = t.removeCol "DATETIME" ∧
    ∃ ds ts ns, t.getCol "DATE" = some ds ∧ t.getCol c = some ts ∧
      exList (fun p => optToExcept .valueError (f p.1 p.2)) (ds.zip ts) = .ok ns ∧
      r.1 = ns.map localizeCET := by
  unfold colBranch at h
  split at h
  · cases h
  · rename_i ds hd
    split at h
    · cases h
    · rename_i ts hc
      split at h
      · cases h
      · rename_i ns hb
        cases h
        exact ⟨rfl, ds, ts, ns, hd, hc, hb, rfl⟩

theorem ptuHourOf_bounds (p : Int) (h0 : 0 ≤ p) (h103 : p ≤ 103)
    (hk : ptuKept p = true) : 0 ≤ ptuHourOf p ∧ ptuHourOf p ≤ 23 := by
  unfold ptuKept at hk
  rw [bne_iff_ne] at hk
  unfold ptuHourOf at hk ⊢
  unfold replace24 at hk ⊢
  have hdv : Int.fdiv p 4 = p / 4 := Int.fdiv_eq_ediv p (by norm_num)
  rw [hdv] at hk ⊢
  by_cases h24 : p / 4 = 24
  · rw [if_pos h24] at hk ⊢
    omega
  · rw [if_neg h24] at hk ⊢
    omega

theorem ptuMinuteOf_bounds (p : Int) : 0 ≤ ptuMinuteOf p ∧ ptuMinuteOf p ≤ 59 := by
  unfold ptuMinuteOf
  show 0 ≤ p % 4 * 15 ∧ p % 4 * 15 ≤ 59
  omega

theorem mkPTUNaive_ok (d : Date) (h m : Int) (hh0 : 0 ≤ h) (hh : h ≤ 23)
    (hm0 : 0 ≤ m) (hm : m ≤ 59) :
    mkPTUNaive (.date d) (.int h) (.int m) = some ⟨d, h.toNat, m.toNat⟩ := by
  simp [mkPTUNaive, hh0, hh, hm0, hm]

/-- Full evaluation of the PTU fallback body on a well-formed table: the
output index derives, in input row order, HOUR and MINUTE from each
surviving PTU cell, and the output table keeps the HOUR and MINUTE
helper columns. -/
theorem ptuCore_eval (t : Table) (dvals : List Date) (pvals : List Int)
    (hd : t.getCol "DATE" = some (dvals.map Value.date))
    (hlen : dvals.length = pvals.length)
    (hbound : ∀ p ∈ pvals, 0 ≤ p ∧ p ≤ 103) :
    ptuCore t pvals = .ok
      (((dvals.zip pvals).filter (fun q => ptuKept q.2)).map
         (fun q => localizeCET ⟨q.1, (ptuHourOf q.2).toNat, (ptuMinuteOf q.2).toNat⟩),
       (ptuTable t pvals).removeCol "DATETIME") := by
  have hmask : (pvals.map ptuHourOf).map (fun h => h != 25) = pvals.map ptuKept := by
    rw [List.map_map]
    apply List.map_congr_left
    intro p _
    rfl
  have hgd : (ptuTable t pvals).getCol "DATE" =
      some (((dvals.zip pvals).filter (fun q => ptuKept q.2)).map
        (fun q => Value.date q.1)) := by
    unfold ptuTable
    rw [getCol_filterRows, getCol_setCol_ne _ _ _ _ (by decide),
      getCol_setCol_ne _ _ _ _ (by decide), hd]
    simp only [Option.map_some']
    rw [hmask, maskFilter_map, maskFilter_companion ptuKept dvals pvals hlen,
      List.map_map]
    rfl
  have hgh : (ptuTable t pvals).getCol "HOUR" =
      some (((dvals.zip pvals).filter (fun q => ptuKept q.2)).map
        (fun q => Value.int (ptuHourOf q.2))) := by
    unfold ptuTable
    rw [getCol_filterRows, getCol_setCol_ne _ _ _ _ (by decide), getCol_setCol_self]
    simp only [Option.map_some']
    rw [hmask, maskFilter_map, maskFilter_map_self,
      filter_snd_zip ptuKept dvals pvals hlen, List.map_map, List.map_map]
    rfl
  have hgm : (ptuTable t pvals).getCol "MINUTE" =
      some (((dvals.zip pvals).filter (fun q => ptuKept q.2)).map
        (fun q => Value.int (ptuMinuteOf q.2))) := by
    unfold ptuTable
    rw [getCol_filterRows, getCol_setCol_self]
    simp only [Option.map_some']
    rw [hmask, maskFilter_map, maskFilter_map_self,
      filter_snd_zip ptuKept dvals pvals hlen, List.map_map, List.map_map]
    rfl
  have hbuild : exList (fun q => optToExcept .valueError (mkPTUNaive q.1.1 q.1.2 q.2))
      (((((dvals.zip pvals).filter (fun q => ptuKept q.2)).map
          (fun q => Value.date q.1)).zip
        (((dvals.zip pvals).filter (fun q => ptuKept q.2)).map
          (fun q => Value.int (ptuHourOf q.2)))).zip
        (((dvals.zip pvals).filter (fun q => ptuKept q.2)).map
          (fun q => Value.int (ptuMinuteOf q.2)))) =
      .ok (((dvals.zip pvals).filter (fun q => ptuKept q.2)).map
        (fun q => ⟨q.1, (ptuHourOf q.2).toNat, (ptuMinuteOf q.2).toNat⟩)) := by
    rw [List.zip_map', List.zip_map']
    have hmapped := exList_map_ok
      (fun q => optToExcept Err.valueError (mkPTUNaive q.1.1 q.1.2 q.2))
      (fun a => match a with
        | ((Value.date d, Value.int h), Value.int m) =>
          (⟨d, h.toNat, m.toNat⟩ : NaiveDT)
        | _ => ⟨⟨0, 0, 0⟩, 0, 0⟩)
      (((dvals.zip pvals).filter (fun q => ptuKept q.2)).map
        (fun q => ((Value.date q.1, Value.int (ptuHourOf q.2)),
          Value.int (ptuMinuteOf q.2))))
      (by
        intro a ha
        obtain ⟨q, hq, rfl⟩ := List.mem_map.mp ha
        have hqzip : q ∈ dvals.zip pvals := List.mem_of_mem_filter hq
        have hkept : ptuKept q.2 = true := by
          have hmf := List.mem_filter.mp hq
          simpa using hmf.2
        obtain ⟨qd, qp⟩ := q
        have hqp : qp ∈ pvals := (List.of_mem_zip hqzip).2
        obtain ⟨hb0, hb103⟩ := hbound qp hqp
        obtain ⟨hh0, hh23⟩ := ptuHourOf_bounds qp hb0 hb103 hkept
        obtain ⟨hm0, hm59⟩ := ptuMinuteOf_bounds qp
        dsimp only
        rw [mkPTUNaive_ok qd (ptuHourOf qp) (ptuMinuteOf qp) hh0 hh23 hm0 hm59]
        rfl)
    rw [List.map_map] at hmapped
    exact hmapped
  simp only [ptuCore, hgd, hgh, hgm, hbuild]
  rw [List.map_map]
  rfl

theorem exList_asIntValue_map (pvals : List Int) :
    exList asIntValue (pvals.map Value.int) = .ok pvals := by
  have hmapped := exList_map_ok asIntValue
    (fun v => match v with | .int n => n | _ => 0) (pvals.map Value.int)
    (by
      intro a ha
      obtain ⟨p, hp, rfl⟩ := List.mem_map.mp ha
      rfl)
  rw [List.map_map] at hmapped
  have hid : List.map
      ((fun v => match v with | Value.int n => n | _ => 0) ∘ Value.int) pvals = pvals :=
    map_eq_self_of pvals _ (fun a _ => rfl)
  rw [hid] at hmapped
  exact hmapped

theorem ptuCore_ok_inv (t : Table) (pints : List Int)
    (r : List (Option NaiveDT) × Table) (h : ptuCore t pints = .ok r) :
    ∃ ds hs ms ns,
      (ptuTable t pints).getCol "DATE" = some ds ∧
      (ptuTable t pints).getCol "HOUR" = some hs ∧
      (ptuTable t pints).getCol "MINUTE" = some ms ∧
      exList (fun q => optToExcept .valueError (mkPTUNaive q.1.1 q.1.2 q.2))
          ((ds.zip hs).zip ms) = .ok ns ∧
      r = (ns.map localizeCET, (ptuTable t pints).removeCol "DATETIME") := by
  unfold ptuCore at h
  split at h
  · rename_i ds hs ms hd hh hm
    split at h
    · cases h
    · rename_i ns hb
      cases h
      exact ⟨ds, hs, ms, ns, hd, hh, hm, hb, rfl⟩
  · cases h

theorem names_ptuTable (t : Table) (pints : List Int)
    (hH : "HOUR" ∉ t.names) (hM : "MINUTE" ∉ t.names) :
    (ptuTable t pints).names = t.names ++ ["HOUR", "MINUTE"] := by
  unfold ptuTable
  rw [names_filterRows, names_setCol, names_setCol, if_neg hH]
  rw [if_neg ?hm]
  case hm =>
    intro hmem
    rcases List.mem_append.mp hmem with h1 | h1
    · exact hM h1
    · simp at h1
  simp

/-- Existential form of the column-name effect of `ptuTable`, with no
assumption on whether HOUR and MINUTE were already present. -/
theorem names_ptuTable_exists (t : Table) (pints : List Int) :
    ∃ ex, (ptuTable t pints).names = t.names ++ ex ∧
      ∀ e ∈ ex, e = "HOUR" ∨ e = "MINUTE" := by
  obtain ⟨ex1, hex1, hex1n⟩ :=
    names_setCol_exists t "HOUR" ((pints.map ptuHourOf).map .int)
  obtain ⟨ex2, hex2, hex2n⟩ :=
    names_setCol_exists (t.setCol "HOUR" ((pints.map ptuHourOf).map .int))
      "MINUTE" ((pints.map ptuMinuteOf).map .int)
  refine ⟨ex1 ++ ex2, ?_, ?_⟩
  · unfold ptuTable
    rw [names_filterRows, hex2, hex1, List.append_assoc]
  · intro e he
    rcases List.mem_append.mp he with h1 | h1
    · exact Or.inl (hex1n e h1)
    · exact Or.inr (hex2n e h1)

theorem getCol_ptuTable_ne (t : Table) (pints : List Int) (nm : String)
    (h1 : nm ≠ "HOUR") (h2 : nm ≠ "MINUTE") :
    (ptuTable t pints).getCol nm =
      (t.getCol nm).map
        (maskFilter ((pints.map ptuHourOf).map (fun h => h != 25))) := by
  unfold ptuTable
  rw [getCol_filterRows, getCol_setCol_ne _ _ _ _ h2, getCol_setCol_ne _ _ _ _ h1]

theorem cols_ptuTable_named_ne (t : Table) (pints : List Int) (nm : String)
    (vs : List Value) (h1 : nm ≠ "HOUR") (h2 : nm ≠ "MINUTE")
    (hall : ∀ c ∈ t.cols, c.1 = nm → c.2 = vs) :
    ∀ c ∈ (ptuTable t pints).cols, c.1 = nm →
      c.2 = maskFilter ((pints.map ptuHourOf).map (fun h => h != 25)) vs := by
  intro c hc hcn
  obtain ⟨d, hdm, hde⟩ := cols_filterRows_mem _ _ c hc
  have hd1 : d.1 = nm := by rw [hde] at hcn; simpa using hcn
  have hdmem1 : d ∈ (t.setCol "HOUR" ((pints.map ptuHourOf).map .int)).cols :=
    cols_setCol_preserve _ _ _ d hdm (by rw [hd1]; exact h2)
  have hdmem0 : d ∈ t.cols :=
    cols_setCol_preserve _ _ _ d hdmem1 (by rw [hd1]; exact h1)
  have hd2 : d.2 = vs := hall d hdmem0 hd1
  rw [hde, hd2]

theorem cols_ptuTable_hour (t : Table) (pints : List Int) :
    ∀ c ∈ (ptuTable t pints).cols, c.1 = "HOUR" →
      c.2 = maskFilter ((pints.map ptuHourOf).map (fun h => h != 25))
        ((pints.map ptuHourOf).map Value.int) := by
  intro c hc hcn
  obtain ⟨d, hdm, hde⟩ := cols_filterRows_mem _ _ c hc
  have hd1 : d.1 = "HOUR" := by rw [hde] at hcn; simpa using hcn
  have hdmem1 : d ∈ (t.setCol "HOUR" ((pints.map ptuHourOf).map .int)).cols :=
    cols_setCol_preserve _ _ _ d hdm (by rw [hd1]; decide)
  have hd2 : d.2 = (pints.map ptuHourOf).map Value.int :=
    cols_setCol_forall _ _ _ d hdmem1 hd1
  rw [hde, hd2]

theorem cols_ptuTable_minute (t : Table) (pints : List Int) :
    ∀ c ∈ (ptuTable t pints).cols, c.1 = "MINUTE" →
      c.2 = maskFilter ((pints.map ptuHourOf).map (fun h => h != 25))
        ((pints.map ptuMinuteOf).map Value.int) := by
  intro c hc hcn
  obtain ⟨d, hdm, hde⟩ := cols_filterRows_mem _ _ c hc
  have hd1 : d.1 = "MINUTE" := by rw [hde] at hcn; simpa using hcn
  have hd2 : d.2 = (pints.map ptuMinuteOf).map Value.int :=
    cols_setCol_forall _ _ _ d hdm hd1
  rw [hde, hd2]

theorem cols_length_setCol (t : Table) (nm : String) (vs : List Value) (k : Nat)
    (hrect : ∀ c ∈ t.cols, c.2.length = k) (hvs : vs.length = k) :
    ∀ c ∈ (t.setCol nm vs).cols, c.2.length = k := by
  intro c hc
  rcases cols_setCol_cases _ _ _ c hc with hm | he
  · exact hrect c hm
  · rw [he]
    exact hvs

theorem filterRows_eq_self (t : Table) (m : List Bool)
    (hall : ∀ b ∈ m, b = true)
    (hrect : ∀ c ∈ t.cols, c.2.length = m.length) :
    t.filterRows m = t := by
  apply table_ext
  unfold Table.filterRows
  apply map_eq_self_of
  intro c hc
  obtain ⟨c1, c2⟩ := c
  simp only
  rw [maskFilter_all_true m c2 hall (by simpa using hrect (c1, c2) hc)]

/-- Row-wise evaluation of a column-combining branch: when every row's
derivation succeeds, the branch returns one localized timestamp per input
row, in input order. -/
theorem colBranch_rowwise (t : Table) (c : String)
    (f : Value → Value → Option NaiveDT) (dvs tvs : List Value)
    (hd : t.getCol "DATE" = some dvs) (hc : t.getCol c = some tvs)
    (hok : ∀ q ∈ dvs.zip tvs, (f q.1 q.2).isSome = true) :
    colBranch t c f =
      .ok ((dvs.zip tvs).map (fun q => (f q.1 q.2).bind localizeCET),
        t.removeCol "DATETIME") := by
  have hb := exList_map_ok (fun p => optToExcept Err.valueError (f p.1 p.2))
    (fun q => (f q.1 q.2).getD ⟨⟨0, 0, 0⟩, 0, 0⟩) (dvs.zip tvs)
    (by
      intro q hq
      obtain ⟨x, hx⟩ := Option.isSome_iff_exists.mp (hok q hq)
      dsimp only
      rw [hx]
      rfl)
  have hmaps : ((dvs.zip tvs).map
        (fun q => (f q.1 q.2).getD ⟨⟨0, 0, 0⟩, 0, 0⟩)).map localizeCET =
      (dvs.zip tvs).map (fun q => (f q.1 q.2).bind localizeCET) := by
    rw [List.map_map]
    apply List.map_congr_left
    intro q hq
    obtain ⟨x, hx⟩ := Option.isSome_iff_exists.mp (hok q hq)
    simp [Function.comp, hx]
  rw [colBranch_eq t c f dvs tvs _ hd hc hb, hmaps]

/-! ## Theorems -/

/-- C1: the claim states that for start_date ≤ end_date the windows
requested by `_monthly_data_call` are contiguous, non-overlapping, union
exactly `[start_date, end_date]`, and that `start_date == end_date`
requests exactly one window.  The code violates this whenever `end_date`
is a month end: for start = end = 2023-01-31 it requests two windows, and
the second one, `(2023-02-01, 2023-01-31)`, is inverted (its datefrom is
after its dateto), so the claimed single-window degenerate behavior
fails. -/
theorem monthly_windows_month_end_failing_input :
    monthly_data_call_windows ⟨2023, 1, 31⟩ ⟨2023, 1, 31⟩ =
      [(⟨2023, 1, 31⟩, ⟨2023, 1, 31⟩), (⟨2023, 2, 1⟩, ⟨2023, 1, 31⟩)] ∧
    (monthly_data_call_windows ⟨2023, 1, 31⟩ ⟨2023, 1, 31⟩).length ≠ 1 ∧
    Date.le ⟨2023, 2, 1⟩ ⟨2023, 1, 31⟩ = false := by
  refine ⟨by decide, by decide, by decide⟩

/-- C9: the claim states that `query_actual_imbalance` issues its GET
against the fixed feed URL.  The code instead passes the feed URL as the
`params` argument of `_api_call`, which `requests.get(self.base_url,
params=...)` appends as the query string of the base URL, so the GET is
issued against the export_data.aspx base URL with the feed URL as its
query, not against the feed URL. -/
theorem actual_imbalance_url_bug :
    query_actual_imbalance_request_url = base_url ++ actual_imbalance_feed ∧
    query_actual_imbalance_request_url ≠ actual_imbalance_feed := by
  refine ⟨rfl, by decide⟩

/-- C3 counterexample: the claim states that a well-formed payload with
zero Record elements yields a zero-row table when the requested window
has start_date = end_date.  `parse_data` never sees the requested window
and raises for zero Record elements unconditionally, so this well-formed
zero-Record payload produces a ParseError, not a zero-row table. -/
theorem parse_data_zero_records_always_error :
    parse_data (some emptyExport) = .error .parseError := rfl

/-- C3 amended: `parse_data` fails with ParseError exactly when the
payload is malformed XML or contains zero Record elements, regardless of
the requested window (in particular also when start_date = end_date); it
never returns a zero-row table. -/
theorem parse_data_error_characterization (x : Xml) :
    parse_data none = .error .parseError ∧
    (findRecords x = [] → parse_data (some x) = .error .parseError) ∧
    (findRecords x ≠ [] → parse_data (some x) = .ok ((findRecords x).map recordToRow)) ∧
    (∀ rows, parse_data (some x) = .ok rows → rows ≠ []) := by
  refine ⟨rfl, fun h => by simp [parse_data, h], fun h => ?_, fun rows hr => ?_⟩
  · unfold parse_data
    cases hfr : findRecords x with
    | nil => exact absurd hfr h
    | cons r rs => simp [hfr]
  · have h1 : parse_data (some x) =
        (match findRecords x with
         | [] => Except.error Err.parseError
         | rs => Except.ok (rs.map recordToRow)) := rfl
    rw [h1] at hr
    cases hfr2 : findRecords x with
    | nil =>
      rw [hfr2] at hr
      simp at hr
    | cons r rs =>
      rw [hfr2] at hr
      simp only [Except.ok.injEq] at hr
      rw [← hr]
      simp

/-- Witness for the C3 amended theorem at a concrete one-Record payload. -/
theorem parse_data_error_characterization_witness :
    parse_data (some oneRecordExport) =
      .ok ((findRecords oneRecordExport).map recordToRow) :=
  (parse_data_error_characterization oneRecordExport).2.2.1
    (List.cons_ne_nil _ _)

/-- C2 counterexample: the claim states that every reconstructed table is
ordered ascending by DATETIME.  `set_index("DATETIME")` does not sort and
no sorting is performed anywhere, so a table whose rows arrive in
descending order is returned in that same descending order. -/
theorem assign_date_column_output_not_sorted :
    assign_date_column exUnsorted =
      .ok ([some ⟨⟨2023, 1, 2⟩, 0, 30⟩, some ⟨⟨2023, 1, 1⟩, 0, 15⟩], exUnsortedOut) ∧
    idxSortedAsc [some ⟨⟨2023, 1, 2⟩, 0, 30⟩, some ⟨⟨2023, 1, 1⟩, 0, 15⟩] = false := by
  refine ⟨rfl, by decide⟩

/-- C4 counterexample: the claim states that any table containing both a
PERIOD_FROM-matching column and a TIME-matching column resolves through
the PERIOD_FROM rule.  The code requires `len(from_cols) == 1`; with two
PERIOD_FROM-matching columns (here PERIOD_FROM and PERIODE_VAN) the first
rule is skipped and the TIME rule wins: the timestamp comes from the TIME
column's 03:00, not from PERIOD_FROM's 01:00. -/
theorem two_from_cols_time_rule_wins :
    resolveConvention exTwoFrom.names = .timeCol "TIME" ∧
    assign_date_column exTwoFrom =
      .ok ([some ⟨⟨2023, 1, 1⟩, 3, 0⟩], exTwoFromOut) := by
  refine ⟨rfl, rfl⟩

/-- C6 counterexample: the claim states that a row with PTU column value
25 derives HOUR 25 and is dropped.  The code derives HOUR = 25 // 4 = 6,
MINUTE = (25 % 4) * 15 = 15, keeps the row, and timestamps it 06:15. -/
theorem ptu_value_25_row_kept :
    assign_datetime_column exPTU25 =
      .ok ([some ⟨⟨2023, 1, 1⟩, 6, 15⟩], exPTU25Out) ∧
    (6 : Int) ≠ 25 := by
  refine ⟨rfl, by decide⟩

/-- C8 counterexample: the claim states reconstruction succeeds a second
time on any table it succeeded on.  A table whose only TIME-matching
column is named DATETIME is reconstructed through that column, which
`set_index("DATETIME")` then consumes; the second application finds no
usable column convention and fails with the missing-PTU AttributeError
(SchemaError) instead of succeeding. -/
theorem datetime_named_column_breaks_idempotence :
    assign_date_column exDT = .ok ([some ⟨⟨2023, 6, 15⟩, 12, 30⟩], exDTOut) ∧
    assign_date_column exDTOut = .error .schemaError := by
  refine ⟨rfl, rfl⟩

/-- C6 amended: in the PTU fallback a row with PTU value 25 derives
HOUR = 25 // 4 = 6 and is kept (timestamped 06:15); the derived HOUR
equals 25, and the row is dropped, exactly when the PTU value lies in
100..103 — as the three-row table with PTU values 25, 96 and 100 shows,
where only the PTU = 100 row is absent from the output. -/
theorem ptu_hour25_drop_characterization :
    (∀ p : Int, replace24 (Int.fdiv p 4) = 25 ↔ 100 ≤ p ∧ p ≤ 103) ∧
    replace24 (Int.fdiv 25 4) = 6 ∧
    assign_datetime_column exPTUMix =
      .ok ([some ⟨⟨2023, 1, 1⟩, 6, 15⟩, some ⟨⟨2023, 1, 1⟩, 0, 0⟩], exPTUMixOut) := by
  refine ⟨fun p => ?_, by decide, rfl⟩
  have hd : Int.fdiv p 4 = p / 4 := Int.fdiv_eq_ediv p (by norm_num)
  unfold replace24
  rw [hd]
  by_cases h24 : p / 4 = 24
  · rw [if_pos h24]; omega
  · rw [if_neg h24]; omega

/-- C7: a parsed table with no PERIOD_FROM/PERIODE_VAN-matching column,
no TIME-matching column, no SEQ_NR column and no PTU column falls through
to the PTU fallback, whose `df.PTU` access raises the missing-column
AttributeError — the SchemaError of the taxonomy, a kind distinct from
RetrievalError and ParseError. -/
theorem no_pattern_schema_error (t : Table)
    (h1 : t.names.filter isFromCol = [])
    (h2 : t.names.filter isTimeCol = [])
    (h3 : t.names.contains "SEQ_NR" = false)
    (h4 : t.getCol "PTU" = none) :
    assign_datetime_column t = .error .schemaError ∧
    (∀ s, Err.schemaError ≠ Err.retrievalError s) ∧
    Err.schemaError ≠ Err.parseError := by
  have hres : resolveConvention t.names = .ptu := by
    unfold resolveConvention
    rw [h1, h2, h3]
    rfl
  refine ⟨?_, ?_, ?_⟩
  · simp [assign_datetime_column, hres, ptuBranch, h4]
  · intro s h
    cases h
  · decide

/-- Witness for C7 at a concrete patternless table. -/
theorem no_pattern_schema_error_witness :
    assign_datetime_column exNoPattern = .error .schemaError :=
  (no_pattern_schema_error exNoPattern (by decide) (by decide) (by decide)
    (by decide)).1

/-- C5: in the PTU fallback each row derives HOUR = PTU // 4 and
MINUTE = (PTU % 4) * 15 (`ptuHourOf` applies the replace of 24 by 0, so
PTU = 96 maps to hour 0 of the same DATE), and exactly the rows whose
derived HOUR is 25 are silently removed (the call still succeeds with
`.ok`, a count-reducing transformation, not an error).  The output index
lists, in input row order, the localized timestamp of every kept row. -/
theorem ptu_fallback_hour_minute_drop (t : Table) (dvals : List Date)
    (pvals : List Int)
    (hres : resolveConvention t.names = .ptu)
    (hp : t.getCol "PTU" = some (pvals.map Value.int))
    (hd : t.getCol "DATE" = some (dvals.map Value.date))
    (hlen : dvals.length = pvals.length)
    (hbound : ∀ p ∈ pvals, 0 ≤ p ∧ p ≤ 103) :
    assign_datetime_column t = .ok
      (((dvals.zip pvals).filter (fun q => ptuKept q.2)).map
         (fun q => localizeCET ⟨q.1, (ptuHourOf q.2).toNat, (ptuMinuteOf q.2).toNat⟩),
       (ptuTable t pvals).removeCol "DATETIME") ∧
    (∀ p : Int, ptuHourOf p = if Int.fdiv p 4 = 24 then 0 else Int.fdiv p 4) ∧
    (∀ p : Int, ptuMinuteOf p = Int.emod p 4 * 15) ∧
    (∀ p : Int, ptuKept p = (ptuHourOf p != 25)) ∧
    ptuHourOf 96 = 0 := by
  refine ⟨?_, fun p => rfl, fun p => rfl, fun p => rfl, by decide⟩
  simp only [assign_datetime_column, hres, ptuBranch, hp, exList_asIntValue_map]
  exact ptuCore_eval t dvals pvals hd hlen hbound

/-- Witness for C5 at a three-row table with PTU values 25, 96, 100. -/
theorem ptu_fallback_hour_minute_drop_witness :
    assign_datetime_column exPTUMix = .ok
      ((([(⟨2023, 1, 1⟩ : Date), ⟨2023, 1, 1⟩, ⟨2023, 1, 1⟩].zip
          [(25 : Int), 96, 100]).filter (fun q => ptuKept q.2)).map
         (fun q => localizeCET ⟨q.1, (ptuHourOf q.2).toNat, (ptuMinuteOf q.2).toNat⟩),
       (ptuTable exPTUMix [25, 96, 100]).removeCol "DATETIME") :=
  (ptu_fallback_hour_minute_drop exPTUMix
    [⟨2023, 1, 1⟩, ⟨2023, 1, 1⟩, ⟨2023, 1, 1⟩] [25, 96, 100]
    rfl rfl rfl rfl (by decide)).1

/-- C10: on the PTU fallback the returned table still contains the
derived HOUR and MINUTE helper columns next to the dataset's original
columns (the `drop` of line 46 is not applied), whereas the PERIOD_FROM,
TIME and SEQ_NR conventions leave the column set unchanged. -/
theorem recon_column_footprint (t : Table) (idx : List (Option NaiveDT))
    (t' : Table)
    (hdt : "DATETIME" ∉ t.names)
    (hok : assign_datetime_column t = .ok (idx, t')) :
    (resolveConvention t.names ≠ .ptu → t'.names = t.names) ∧
    (resolveConvention t.names = .ptu → "HOUR" ∉ t.names → "MINUTE" ∉ t.names →
      t'.names = t.names ++ ["HOUR", "MINUTE"]) := by
  cases hres : resolveConvention t.names with
  | fromCol c =>
    refine ⟨fun _ => ?_, fun hp => nomatch hp⟩
    have hcb : colBranch t c deriveDT = .ok (idx, t') := by
      simpa only [assign_datetime_column, hres] using hok
    have h2 : t' = t.removeCol "DATETIME" := (colBranch_ok_inv _ _ _ _ hcb).1
    rw [h2, removeCol_eq_self t _ hdt]
  | timeCol c =>
    refine ⟨fun _ => ?_, fun hp => nomatch hp⟩
    have hcb : colBranch t c deriveDT = .ok (idx, t') := by
      simpa only [assign_datetime_column, hres] using hok
    have h2 : t' = t.removeCol "DATETIME" := (colBranch_ok_inv _ _ _ _ hcb).1
    rw [h2, removeCol_eq_self t _ hdt]
  | seqNr =>
    refine ⟨fun _ => ?_, fun hp => nomatch hp⟩
    have hcb : colBranch t "SEQ_NR" seqToDT = .ok (idx, t') := by
      simpa only [assign_datetime_column, hres] using hok
    have h2 : t' = t.removeCol "DATETIME" := (colBranch_ok_inv _ _ _ _ hcb).1
    rw [h2, removeCol_eq_self t _ hdt]
  | ptu =>
    refine ⟨fun hne => absurd rfl hne, fun _ hH hM => ?_⟩
    have hpb : ptuBranch t = .ok (idx, t') := by
      simpa only [assign_datetime_column, hres] using hok
    unfold ptuBranch at hpb
    split at hpb
    · cases hpb
    · rename_i ps hp
      split at hpb
      · cases hpb
      · rename_i pints hexi
        obtain ⟨ds, hs, ms, ns, _, _, _, _, hr⟩ := ptuCore_ok_inv t pints _ hpb
        have ht' : t' = (ptuTable t pints).removeCol "DATETIME" :=
          congrArg Prod.snd hr
        have hnamesP : (ptuTable t pints).names = t.names ++ ["HOUR", "MINUTE"] :=
          names_ptuTable t pints hH hM
        have hdtP : "DATETIME" ∉ (ptuTable t pints).names := by
          rw [hnamesP]
          intro hmem
          rcases List.mem_append.mp hmem with h1 | h1
          · exact hdt h1
          · simp at h1
        rw [ht', removeCol_eq_self _ _ hdtP, hnamesP]

/-- Witness for C10 at a one-row PTU table: HOUR and MINUTE appear after
the original DATE and PTU columns. -/
theorem recon_column_footprint_witness :
    exPTU25Out.names = exPTU25.names ++ ["HOUR", "MINUTE"] :=
  (recon_column_footprint exPTU25 [some ⟨⟨2023, 1, 1⟩, 6, 15⟩] exPTU25Out
    (by decide) rfl).2 rfl (by decide) (by decide)

/-- C2 amended: reconstruction does not sort and does not deduplicate:
on every one of the four conventions the output index consists of the
per-row derived timestamps in the order the rows entered.  On the
PERIOD_FROM, TIME and SEQ_NR conventions there is exactly one output
entry per input row; on the PTU fallback the output is the
order-preserving subsequence of rows whose derived HOUR is not 25.
Duplicate DATETIME values are therefore preserved rather than dropped,
and no ascending ordering is enforced (the counterexample shows a
descending output). -/
theorem recon_preserves_row_order :
    (∀ (t : Table) (c : String) (dvs tvs : List Value),
      (resolveConvention t.names = .fromCol c ∨
        resolveConvention t.names = .timeCol c) →
      t.getCol "DATE" = some dvs → t.getCol c = some tvs →
      dvs.length = tvs.length →
      (∀ q ∈ dvs.zip tvs, (deriveDT q.1 q.2).isSome = true) →
      assign_datetime_column t =
        .ok ((dvs.zip tvs).map (fun q => (deriveDT q.1 q.2).bind localizeCET),
          t.removeCol "DATETIME") ∧
      ((dvs.zip tvs).map (fun q => (deriveDT q.1 q.2).bind localizeCET)).length =
        dvs.length) ∧
    (∀ (t : Table) (dvs svs : List Value),
      resolveConvention t.names = .seqNr →
      t.getCol "DATE" = some dvs → t.getCol "SEQ_NR" = some svs →
      dvs.length = svs.length →
      (∀ q ∈ dvs.zip svs, (seqToDT q.1 q.2).isSome = true) →
      assign_datetime_column t =
        .ok ((dvs.zip svs).map (fun q => (seqToDT q.1 q.2).bind localizeCET),
          t.removeCol "DATETIME") ∧
      ((dvs.zip svs).map (fun q => (seqToDT q.1 q.2).bind localizeCET)).length =
        dvs.length) ∧
    (∀ (t : Table) (dvals : List Date) (pvals : List Int),
      resolveConvention t.names = .ptu →
      t.getCol "PTU" = some (pvals.map Value.int) →
      t.getCol "DATE" = some (dvals.map Value.date) →
      dvals.length = pvals.length →
      (∀ p ∈ pvals, 0 ≤ p ∧ p ≤ 103) →
      assign_datetime_column t = .ok
        (((dvals.zip pvals).filter (fun q => ptuKept q.2)).map
          (fun q => localizeCET
            ⟨q.1, (ptuHourOf q.2).toNat, (ptuMinuteOf q.2).toNat⟩),
        (ptuTable t pvals).removeCol "DATETIME")) := by
  refine ⟨?_, ?_, ?_⟩
  · intro t c dvs tvs hres hd hc hlen hok
    refine ⟨?_, ?_⟩
    · rcases hres with hres | hres
      · simp only [assign_datetime_column, hres]
        exact colBranch_rowwise t c deriveDT dvs tvs hd hc hok
      · simp only [assign_datetime_column, hres]
        exact colBranch_rowwise t c deriveDT dvs tvs hd hc hok
    · rw [List.length_map, List.length_zip]
      omega
  · intro t dvs svs hres hd hc hlen hok
    refine ⟨?_, ?_⟩
    · simp only [assign_datetime_column, hres]
      exact colBranch_rowwise t "SEQ_NR" seqToDT dvs svs hd hc hok
    · rw [List.length_map, List.length_zip]
      omega
  · intro t dvals pvals hres hp hd hlen hbound
    simp only [assign_datetime_column, hres, ptuBranch, hp, exList_asIntValue_map]
    exact ptuCore_eval t dvals pvals hd hlen hbound

/-- Witness for the C2 amended theorem, exercising the TIME branch on
the two-row descending table (both rows appear in input, descending,
order), the SEQ_NR branch, and the PTU branch on the 25/96/100 table. -/
theorem recon_preserves_row_order_witness :
    (assign_datetime_column exUnsortedOut =
      .ok ((([(Value.date ⟨2023, 1, 2⟩), Value.date ⟨2023, 1, 1⟩].zip
          [(Value.str "00:30"), Value.str "00:15"]).map
            (fun q => (deriveDT q.1 q.2).bind localizeCET)),
        exUnsortedOut.removeCol "DATETIME")) ∧
    (assign_datetime_column exSeq =
      .ok ((([(Value.date ⟨2023, 1, 1⟩)].zip [(Value.int 5)]).map
            (fun q => (seqToDT q.1 q.2).bind localizeCET)),
        exSeq.removeCol "DATETIME")) ∧
    (assign_datetime_column exPTUMix = .ok
      ((([(⟨2023, 1, 1⟩ : Date), ⟨2023, 1, 1⟩, ⟨2023, 1, 1⟩].zip
          [(25 : Int), 96, 100]).filter (fun q => ptuKept q.2)).map
        (fun q => localizeCET
          ⟨q.1, (ptuHourOf q.2).toNat, (ptuMinuteOf q.2).toNat⟩),
      (ptuTable exPTUMix [25, 96, 100]).removeCol "DATETIME")) :=
  ⟨(recon_preserves_row_order.1 exUnsortedOut "TIME"
      [Value.date ⟨2023, 1, 2⟩, Value.date ⟨2023, 1, 1⟩]
      [Value.str "00:30", Value.str "00:15"]
      (Or.inr rfl) rfl rfl rfl (by decide)).1,
    (recon_preserves_row_order.2.1 exSeq
      [Value.date ⟨2023, 1, 1⟩] [Value.int 5]
      rfl rfl rfl rfl (by decide)).1,
    recon_preserves_row_order.2.2 exPTUMix
      [⟨2023, 1, 1⟩, ⟨2023, 1, 1⟩, ⟨2023, 1, 1⟩] [25, 96, 100]
      rfl rfl rfl rfl (by decide)⟩

/-- C4 amended: when the table contains exactly one column matching
PERIOD_FROM or PERIODE_VAN, that column wins over any TIME-matching
column: the timestamps are derived from DATE combined with the
PERIOD_FROM column's HH:MM values.  (With two or more PERIOD_FROM
matches the TIME rule wins instead, as the counterexample shows.) -/
theorem period_from_priority (t : Table) (c : String)
    (dvs fvs : List Value)
    (huniq : t.names.filter isFromCol = [c])
    (htime : ∃ tc ∈ t.names, isTimeCol tc = true)
    (hd : t.getCol "DATE" = some dvs)
    (hc : t.getCol c = some fvs)
    (hok : ∀ q ∈ dvs.zip fvs, (deriveDT q.1 q.2).isSome = true) :
    assign_datetime_column t =
      .ok ((dvs.zip fvs).map (fun q => (deriveDT q.1 q.2).bind localizeCET),
        t.removeCol "DATETIME") := by
  have hres : resolveConvention t.names = .fromCol c :=
    resolve_fromCol_of_unique t.names c huniq
  have hb := exList_map_ok (fun p => optToExcept Err.valueError (deriveDT p.1 p.2))
    (fun q => (deriveDT q.1 q.2).getD ⟨⟨0, 0, 0⟩, 0, 0⟩) (dvs.zip fvs)
    (by
      intro q hq
      obtain ⟨x, hx⟩ := Option.isSome_iff_exists.mp (hok q hq)
      dsimp only
      rw [hx]
      rfl)
  have hmaps : ((dvs.zip fvs).map
        (fun q => (deriveDT q.1 q.2).getD ⟨⟨0, 0, 0⟩, 0, 0⟩)).map localizeCET =
      (dvs.zip fvs).map (fun q => (deriveDT q.1 q.2).bind localizeCET) := by
    rw [List.map_map]
    apply List.map_congr_left
    intro q hq
    obtain ⟨x, hx⟩ := Option.isSome_iff_exists.mp (hok q hq)
    simp [Function.comp, hx]
  simp only [assign_datetime_column, hres]
  rw [colBranch_eq t c deriveDT dvs fvs _ hd hc hb, hmaps]

/-- Witness for the C4 amended theorem: with one PERIOD_FROM column and a
TIME column, the 01:00 of PERIOD_FROM is used, not the 03:00 of TIME. -/
theorem period_from_priority_witness :
    assign_datetime_column exOneFrom =
      .ok ((([(Value.date ⟨2023, 1, 1⟩)].zip [(Value.str "01:00")]).map
          (fun q => (deriveDT q.1 q.2).bind localizeCET)),
        exOneFrom.removeCol "DATETIME") :=
  period_from_priority exOneFrom "PERIOD_FROM"
    [Value.date ⟨2023, 1, 1⟩] [Value.str "01:00"]
    (by decide) ⟨"TIME", by decide, by decide⟩ rfl rfl (by decide)

/-- C8 amended: for every rectangular table without a column named
DATETIME on which `assign_date_column` succeeds, applying it a second
time to the returned table succeeds and yields the same DATETIME index
and the same table.  (With a pre-existing DATETIME column, the
counterexample shows the second application can fail, because
`set_index` consumes the column the first run resolved through.) -/
theorem assign_date_column_idempotent (t : Table) (idx : List (Option NaiveDT))
    (t' : Table) (n : Nat)
    (hdt : "DATETIME" ∉ t.names)
    (hrect : ∀ c ∈ t.cols, c.2.length = n)
    (h : assign_date_column t = .ok (idx, t')) :
    assign_date_column t' = .ok (idx, t') := by
  unfold assign_date_column at h
  split at h
  · cases h
  · rename_i ds hd
    split at h
    · cases h
    · rename_i ds' hex
      have hdates : ∀ v ∈ ds', ∃ d, v = Value.date d :=
        exList_toDatetime_dates ds ds' hex
      have hdmem : "DATE" ∈ t.names := getCol_mem_names t "DATE" ds hd
      have hnames0 : (t.setCol "DATE" ds').names = t.names := by
        rw [names_setCol, if_pos hdmem]
      have hget0 : (t.setCol "DATE" ds').getCol "DATE" = some ds' :=
        getCol_setCol_self t "DATE" ds'
      have hex0 : exList toDatetimeValue ds' = .ok ds' :=
        exList_toDatetime_of_dates ds' hdates
      have hall0 : ∀ c ∈ (t.setCol "DATE" ds').cols, c.1 = "DATE" → c.2 = ds' :=
        cols_setCol_forall t "DATE" ds'
      have hset0 : (t.setCol "DATE" ds').setCol "DATE" ds' = t.setCol "DATE" ds' :=
        setCol_eq_self _ "DATE" ds' (by rw [hnames0]; exact hdmem) hall0
      have hdtn0 : "DATETIME" ∉ (t.setCol "DATE" ds').names := by
        rw [hnames0]
        exact hdt
      have hlds : ds.length = n := by
        simpa using hrect ("DATE", ds) (getCol_mem_cols t "DATE" ds hd)
      have hlds' : ds'.length = n := by
        rw [exList_length toDatetimeValue ds ds' hex]
        exact hlds
      have hrect0 : ∀ c ∈ (t.setCol "DATE" ds').cols, c.2.length = n :=
        cols_length_setCol t "DATE" ds' n hrect hlds'
      have h0 : assign_datetime_column (t.setCol "DATE" ds') = .ok (idx, t') := h
      cases hres : resolveConvention (t.setCol "DATE" ds').names with
      | fromCol c =>
        have hcb : colBranch (t.setCol "DATE" ds') c deriveDT = .ok (idx, t') := by
          simpa only [assign_datetime_column, hres] using h0
        have ht' : t' = t.setCol "DATE" ds' := by
          have h2 : t' = (t.setCol "DATE" ds').removeCol "DATETIME" :=
            (colBranch_ok_inv _ _ _ _ hcb).1
          rw [h2, removeCol_eq_self _ _ hdtn0]
        rw [ht'] at h0 ⊢
        unfold assign_date_column
        simp only [hget0, hex0, hset0, h0]
      | timeCol c =>
        have hcb : colBranch (t.setCol "DATE" ds') c deriveDT = .ok (idx, t') := by
          simpa only [assign_datetime_column, hres] using h0
        have ht' : t' = t.setCol "DATE" ds' := by
          have h2 : t' = (t.setCol "DATE" ds').removeCol "DATETIME" :=
            (colBranch_ok_inv _ _ _ _ hcb).1
          rw [h2, removeCol_eq_self _ _ hdtn0]
        rw [ht'] at h0 ⊢
        unfold assign_date_column
        simp only [hget0, hex0, hset0, h0]
      | seqNr =>
        have hcb : colBranch (t.setCol "DATE" ds') "SEQ_NR" seqToDT = .ok (idx, t') := by
          simpa only [assign_datetime_column, hres] using h0
        have ht' : t' = t.setCol "DATE" ds' := by
          have h2 : t' = (t.setCol "DATE" ds').removeCol "DATETIME" :=
            (colBranch_ok_inv _ _ _ _ hcb).1
          rw [h2, removeCol_eq_self _ _ hdtn0]
        rw [ht'] at h0 ⊢
        unfold assign_date_column
        simp only [hget0, hex0, hset0, h0]
      | ptu =>
        have hpb : ptuBranch (t.setCol "DATE" ds') = .ok (idx, t') := by
          simpa only [assign_datetime_column, hres] using h0
        unfold ptuBranch at hpb
        split at hpb
        · cases hpb
        · rename_i ps hp
          split at hpb
          · cases hpb
          · rename_i pints hexi
            have hps : ps = pints.map Value.int := exList_asIntValue_inv ps pints hexi
            obtain ⟨ds₂, hs₂, ms₂, ns, hgd2, hgh2, hgm2, hbld, hr⟩ :=
              ptuCore_ok_inv (t.setCol "DATE" ds') pints _ hpb
            have hmaskk : (pints.map ptuHourOf).map (fun x => x != 25) =
                pints.map ptuKept := by
              rw [List.map_map]
              apply List.map_congr_left
              intro p _
              rfl
            obtain ⟨ex, hexn, hexe⟩ :=
              names_ptuTable_exists (t.setCol "DATE" ds') pints
            have hdtT2 : "DATETIME" ∉ (ptuTable (t.setCol "DATE" ds') pints).names := by
              rw [hexn]
              intro hmem
              rcases List.mem_append.mp hmem with h1 | h1
              · exact hdtn0 h1
              · rcases hexe _ h1 with he | he <;> exact absurd he (by decide)
            have ht' : t' = ptuTable (t.setCol "DATE" ds') pints := by
              have h2 : t' = (ptuTable (t.setCol "DATE" ds') pints).removeCol "DATETIME" :=
                congrArg Prod.snd hr
              rw [h2, removeCol_eq_self _ _ hdtT2]
            have hidx : idx = ns.map localizeCET := congrArg Prod.fst hr
            have hresT2 : resolveConvention
                (ptuTable (t.setCol "DATE" ds') pints).names = .ptu := by
              rw [hexn]
              apply resolve_ptu_append _ ex hres
              intro e he
              rcases hexe e he with he1 | he1 <;> rw [he1]
              · exact ⟨by decide, by decide, by decide⟩
              · exact ⟨by decide, by decide, by decide⟩
            have hds2 : ds₂ =
                maskFilter ((pints.map ptuHourOf).map (fun x => x != 25)) ds' := by
              have hcalc := (getCol_ptuTable_ne (t.setCol "DATE" ds') pints "DATE"
                (by decide) (by decide)).symm.trans hgd2
              rw [hget0] at hcalc
              simpa using hcalc.symm
            have hdates2 : ∀ v ∈ ds₂, ∃ d, v = Value.date d := by
              intro v hv
              rw [hds2] at hv
              exact hdates v (mem_maskFilter _ _ _ hv)
            have hex2 : exList toDatetimeValue ds₂ = .ok ds₂ :=
              exList_toDatetime_of_dates ds₂ hdates2
            have hallT2 : ∀ c ∈ (ptuTable (t.setCol "DATE" ds') pints).cols,
                c.1 = "DATE" → c.2 = ds₂ := by
              intro c hc hcn
              rw [hds2]
              exact cols_ptuTable_named_ne _ pints "DATE" ds' (by decide) (by decide)
                hall0 c hc hcn
            have hsetT2 : (ptuTable (t.setCol "DATE" ds') pints).setCol "DATE" ds₂ =
                ptuTable (t.setCol "DATE" ds') pints :=
              setCol_eq_self _ "DATE" ds₂
                (getCol_mem_names _ "DATE" ds₂ hgd2) hallT2
            have hgpT2 : (ptuTable (t.setCol "DATE" ds') pints).getCol "PTU" =
                some ((pints.filter ptuKept).map Value.int) := by
              rw [getCol_ptuTable_ne _ _ _ (by decide) (by decide), hp]
              simp only [Option.map_some']
              rw [hps, hmaskk, maskFilter_map, maskFilter_mask_self]
            have hexiT2 : exList asIntValue ((pints.filter ptuKept).map Value.int) =
                .ok (pints.filter ptuKept) := exList_asIntValue_map _
            have hvEq : maskFilter ((pints.map ptuHourOf).map (fun x => x != 25))
                ((pints.map ptuHourOf).map Value.int) =
                ((pints.filter ptuKept).map ptuHourOf).map Value.int := by
              rw [hmaskk, maskFilter_map, maskFilter_map_self]
            have hmEq : maskFilter ((pints.map ptuHourOf).map (fun x => x != 25))
                ((pints.map ptuMinuteOf).map Value.int) =
                ((pints.filter ptuKept).map ptuMinuteOf).map Value.int := by
              rw [hmaskk, maskFilter_map, maskFilter_map_self]
            have hstep1 : (ptuTable (t.setCol "DATE" ds') pints).setCol "HOUR"
                (((pints.filter ptuKept).map ptuHourOf).map Value.int) =
                ptuTable (t.setCol "DATE" ds') pints := by
              apply setCol_eq_self _ _ _ (getCol_mem_names _ "HOUR" hs₂ hgh2)
              intro c hc hcn
              rw [cols_ptuTable_hour _ pints c hc hcn]
              exact hvEq
            have hstep2 : (ptuTable (t.setCol "DATE" ds') pints).setCol "MINUTE"
                (((pints.filter ptuKept).map ptuMinuteOf).map Value.int) =
                ptuTable (t.setCol "DATE" ds') pints := by
              apply setCol_eq_self _ _ _ (getCol_mem_names _ "MINUTE" ms₂ hgm2)
              intro c hc hcn
              rw [cols_ptuTable_minute _ pints c hc hcn]
              exact hmEq
            have hmask2 : ((pints.filter ptuKept).map ptuHourOf).map (fun x => x != 25) =
                (pints.filter ptuKept).map ptuKept := by
              rw [List.map_map]
              apply List.map_congr_left
              intro p _
              rfl
            have hmask2true : ∀ b ∈ ((pints.filter ptuKept).map ptuHourOf).map
                (fun x => x != 25), b = true := by
              rw [hmask2]
              intro b hb
              obtain ⟨p, hp2, rfl⟩ := List.mem_map.mp hb
              exact List.of_mem_filter hp2
            have hlps : ps.length = n := by
              simpa using hrect0 ("PTU", ps)
                (getCol_mem_cols (t.setCol "DATE" ds') "PTU" ps hp)
            have hlpints : pints.length = n := by
              rw [exList_length asIntValue ps pints hexi]
              exact hlps
            have hrect1 : ∀ c ∈ ((t.setCol "DATE" ds').setCol "HOUR"
                ((pints.map ptuHourOf).map Value.int)).cols, c.2.length = n :=
              cols_length_setCol _ "HOUR" _ n hrect0 (by simp [hlpints])
            have hrect2 : ∀ c ∈ (((t.setCol "DATE" ds').setCol "HOUR"
                ((pints.map ptuHourOf).map Value.int)).setCol "MINUTE"
                ((pints.map ptuMinuteOf).map Value.int)).cols, c.2.length = n :=
              cols_length_setCol _ "MINUTE" _ n hrect1 (by simp [hlpints])
            have hkeptlen : (((pints.filter ptuKept).map ptuHourOf).map
                (fun x => x != 25)).length =
                (maskFilter ((pints.map ptuHourOf).map (fun x => x != 25)) pints).length := by
              rw [hmaskk, maskFilter_mask_self]
              simp
            have hrectT2 : ∀ c ∈ (ptuTable (t.setCol "DATE" ds') pints).cols,
                c.2.length = (((pints.filter ptuKept).map ptuHourOf).map
                  (fun x => x != 25)).length := by
              intro c hc
              obtain ⟨d, hdm, hde⟩ := cols_filterRows_mem _ _ c hc
              rw [hde]
              simp only
              rw [hkeptlen]
              apply maskFilter_length_eq
              rw [hrect2 d hdm, hlpints]
            have hstep3 : (ptuTable (t.setCol "DATE" ds') pints).filterRows
                (((pints.filter ptuKept).map ptuHourOf).map (fun x => x != 25)) =
                ptuTable (t.setCol "DATE" ds') pints :=
              filterRows_eq_self _ _ hmask2true hrectT2
            have hTT : ptuTable (ptuTable (t.setCol "DATE" ds') pints)
                (pints.filter ptuKept) = ptuTable (t.setCol "DATE" ds') pints := by
              rw [show ptuTable (ptuTable (t.setCol "DATE" ds') pints)
                  (pints.filter ptuKept) =
                  (((ptuTable (t.setCol "DATE" ds') pints).setCol "HOUR"
                    (((pints.filter ptuKept).map ptuHourOf).map Value.int)).setCol
                    "MINUTE"
                    (((pints.filter ptuKept).map ptuMinuteOf).map Value.int)).filterRows
                  (((pints.filter ptuKept).map ptuHourOf).map (fun x => x != 25))
                from rfl]
              rw [hstep1, hstep2, hstep3]
            have hcore2 : ptuCore (ptuTable (t.setCol "DATE" ds') pints)
                (pints.filter ptuKept) = .ok (idx, ptuTable (t.setCol "DATE" ds') pints) := by
              unfold ptuCore
              rw [hTT]
              simp only [hgd2, hgh2, hgm2, hbld]
              rw [hidx, removeCol_eq_self _ _ hdtT2]
            rw [ht'] at h0 ⊢
            unfold assign_date_column
            simp only [hgd2, hex2, hsetT2, assign_datetime_column, hresT2, ptuBranch,
              hgpT2, hexiT2, hcore2]

/-- Witness for the C8 amended theorem at a one-row PTU table: the
reconstruction of the reconstructed table returns the same index and
table. -/
theorem assign_date_column_idempotent_witness :
    assign_date_column exPTU25Out =
      .ok ([some ⟨⟨2023, 1, 1⟩, 6, 15⟩], exPTU25Out) :=
  assign_date_column_idempotent exPTU25 [some ⟨⟨2023, 1, 1⟩, 6, 15⟩]
    exPTU25Out 1 (by decide) (by decide) rfl

end Tennet
